import Mathlib

/-!
Verification development for the Apollo 3.0 planning module
(`modules/planning/planning.cc`, `modules/planning/common/speed/st_boundary.cc`).

Numbers are embedded as exact rationals (`ℚ`).  The only place where IEEE-754
special values matter on the verified paths is the interpolation ratio
`r = (t - t_left) / (t_right - t_left)` inside `GetUnblockSRange` /
`GetBoundarySRange`, whose denominator is zero exactly when the bracketing
indices collapse (`left = right`); there the C++ code produces NaN.  We model
doubles flowing out of that division with an explicit `Dbl` type carrying a
NaN element, and give `fmin` / `fmax` their C99 semantics (a NaN operand is
ignored).  At every division site in the modelled code the numerator is zero
whenever the denominator is, so IEEE infinities cannot arise and `Dbl.nan`
is a faithful image of the C++ behaviour.
-/

namespace ApolloPlanning

/-- Model of a C++ `double` value in contexts where NaN can occur. -/
inductive Dbl where
  | nan : Dbl
  | fin : ℚ → Dbl
  deriving DecidableEq, Repr

namespace Dbl

/-- Addition; NaN propagates. -/
def add : Dbl → Dbl → Dbl
  | nan, _ => nan
  | _, nan => nan
  | fin a, fin b => fin (a + b)

/-- Multiplication; NaN propagates (IEEE: `0 * NaN = NaN`). -/
def mul : Dbl → Dbl → Dbl
  | nan, _ => nan
  | _, nan => nan
  | fin a, fin b => fin (a * b)

/-- Division; NaN propagates and a zero denominator yields NaN.  At the call
sites modelled here the numerator is zero whenever the denominator is, so the
IEEE result there is `0/0 = NaN` and infinities never arise. -/
def div : Dbl → Dbl → Dbl
  | nan, _ => nan
  | _, nan => nan
  | fin a, fin b => if b = 0 then nan else fin (a / b)

/-- `std::fmax`: if one operand is NaN, the other is returned. -/
def fmax : Dbl → Dbl → Dbl
  | nan, y => y
  | x, nan => x
  | fin a, fin b => fin (max a b)

/-- `std::fmin`: if one operand is NaN, the other is returned. -/
def fmin : Dbl → Dbl → Dbl
  | nan, y => y
  | x, nan => x
  | fin a, fin b => fin (min a b)

end Dbl

/-- `STPoint` from `st_point.h`: a point of the speed-time plane.
The class stores the time coordinate as Vec2d `x` and the arc-length
coordinate as Vec2d `y`; this mapping is pinned down by the uses in
`st_boundary.cc` (e.g. `ExpandByS` builds `STPoint(p.y() - s, p.x())`,
and the polygon is assembled in `(t, s)` coordinates). -/
structure STPoint where
  s : ℚ
  t : ℚ
  deriving DecidableEq, Repr

instance : Inhabited STPoint := ⟨⟨0, 0⟩⟩

/-- Vec2d x-coordinate of an STPoint (the time coordinate). -/
def STPoint.x (p : STPoint) : ℚ := p.t

/-- Vec2d y-coordinate of an STPoint (the arc-length coordinate). -/
def STPoint.y (p : STPoint) : ℚ := p.s

/-- `StBoundary::BoundaryType` from `st_boundary.h`. -/
inductive BoundaryType where
  | UNKNOWN
  | STOP
  | FOLLOW
  | YIELD
  | OVERTAKE
  | KEEP_CLEAR
  deriving DecidableEq, Repr

/-- `kStBoundaryEpsilon = 1e-9` (st_boundary.cc). -/
def kStBoundaryEpsilon : ℚ := 1 / 1000000000

/-- `kMinDeltaT = 1e-6` (st_boundary.cc). -/
def kMinDeltaT : ℚ := 1 / 1000000

/-- `kMaxDist = 0.1` (st_boundary.cc, RemoveRedundantPoints). -/
def kMaxDist : ℚ := 1 / 10

/-- `kMinSEpsilon = 1e-3` (st_boundary.cc, ExpandByT). -/
def kMinSEpsilon : ℚ := 1 / 1000

/-- `s_high_limit_` default from st_boundary.h (`200.0`); the header is not
part of the extracted sources, the spec calls it the configured high-s safety
limit.  Its concrete value is immaterial to the claims. -/
def sHighLimit : ℚ := 200

/-- Squared distance between two points of the (t, s) plane. -/
def ptDistSq (a b : STPoint) : ℚ := (a.x - b.x) ^ 2 + (a.y - b.y) ^ 2

/-- Modelled from the spec: squared distance from point `p` to the segment
from `sp` to `ep` (the body of `LineSegment2d::DistanceSquareTo`, whose
source file `modules/common/math/line_segment2d.cc` is not among the
extracted sources; the spec speaks of the perpendicular distance to the
lower and upper chain segments).  A segment of length at most `kMathEpsilon =
1e-10` degenerates to its start point; otherwise the projection of `p` is
clamped to the segment before measuring.  All divisions are by the positive
squared length. -/
def segDistSq (sp ep p : STPoint) : ℚ :=
  let dx := ep.x - sp.x
  let dy := ep.y - sp.y
  let lenSq := dx ^ 2 + dy ^ 2
  if lenSq ≤ 1 / 10 ^ 20 then ptDistSq p sp
  else
    let x0 := p.x - sp.x
    let y0 := p.y - sp.y
    let proj := x0 * dx + y0 * dy
    if proj ≤ 0 then x0 ^ 2 + y0 ^ 2
    else if lenSq ≤ proj then ptDistSq p ep
    else (x0 * dy - y0 * dx) ^ 2 / lenSq

/-- `StBoundary::IsPointNear`: squared segment distance below `maxDist²`. -/
def isPointNear (sp ep p : STPoint) (maxDist : ℚ) : Bool :=
  decide (segDistSq sp ep p < maxDist * maxDist)

/-- One step of `StBoundary::RemoveRedundantPoints`: the middle pair `curr`
is kept iff its lower point is not near the lower segment from the last kept
pair to `next`, or its upper point is not near the corresponding upper
segment. -/
def keepPair (lastKept curr nxt : STPoint × STPoint) : Bool :=
  !(isPointNear lastKept.1 nxt.1 curr.1 kMaxDist) ||
    !(isPointNear lastKept.2 nxt.2 curr.2 kMaxDist)

/-- Loop of `RemoveRedundantPoints`: scan with a two-pair lookahead, carrying
the most recently kept pair as the segment start; the final pair is always
retained. -/
def rrpAux (lastKept : STPoint × STPoint) :
    List (STPoint × STPoint) → List (STPoint × STPoint)
  | curr :: nxt :: rest =>
    if keepPair lastKept curr nxt then curr :: rrpAux curr (nxt :: rest)
    else rrpAux lastKept (nxt :: rest)
  | [x] => [x]
  | [] => []

/-- `StBoundary::RemoveRedundantPoints`: lists of at most two pairs are
returned unchanged; otherwise the first pair is kept and the scan runs over
the tail. -/
def removeRedundantPoints (pairs : List (STPoint × STPoint)) :
    List (STPoint × STPoint) :=
  if pairs.length ≤ 2 then pairs
  else
    match pairs with
    | [] => []
    | p0 :: rest => p0 :: rrpAux p0 rest

/-- Per-pair conditions of `StBoundary::IsValid`: the upper `s` is not below
the lower `s`, and the two time stamps agree within `kStBoundaryEpsilon`. -/
def pairOk (pr : STPoint × STPoint) : Bool :=
  decide (pr.1.s ≤ pr.2.s) && decide (|pr.1.t - pr.2.t| ≤ kStBoundaryEpsilon)

/-- Consecutive-pair condition of `StBoundary::IsValid`: the check fails when
`fmax(curr_lower.t, curr_upper.t) + kMinDeltaT >= fmin(next_lower.t,
next_upper.t)`. -/
def consecOk (a b : STPoint × STPoint) : Bool :=
  decide (max a.1.t a.2.t + kMinDeltaT < min b.1.t b.2.t)

/-- All consecutive pairs satisfy `consecOk`. -/
def consecAll : List (STPoint × STPoint) → Bool
  | a :: b :: rest => consecOk a b && consecAll (b :: rest)
  | _ => true

/-- `StBoundary::IsValid`.  The C++ loop interleaves the per-pair and the
consecutive-pair checks; the resulting boolean is the same conjunction. -/
def isValid (pairs : List (STPoint × STPoint)) : Bool :=
  decide (2 ≤ pairs.length) && pairs.all pairOk && consecAll pairs

/-- The validity conditions in the words of the claim (C2): at least two
pairs; `upper.s ≥ lower.s` in every pair; `|lower.t - upper.t| ≤ 1e-9`; and
`min(lower.t, upper.t)` of each next pair exceeds `max(lower.t, upper.t)` of
the previous pair by at least `1e-6`. -/
def claimValidC2 (pairs : List (STPoint × STPoint)) : Prop :=
  2 ≤ pairs.length ∧
    (∀ pr ∈ pairs, pr.1.s ≤ pr.2.s ∧ |pr.1.t - pr.2.t| ≤ kStBoundaryEpsilon) ∧
    pairs.Chain' (fun a b => max a.1.t a.2.t + kMinDeltaT ≤ min b.1.t b.2.t)

/-- The gap relation checked between consecutive pairs. -/
def gapRel (a b : STPoint × STPoint) : Prop :=
  max a.1.t a.2.t + kMinDeltaT < min b.1.t b.2.t

/-- The lower-chain image of an input pair. -/
def lowerOf (pr : STPoint × STPoint) : STPoint := ⟨pr.1.s, pr.1.t⟩

/-- The upper-chain image of an input pair (note: the lower time stamp is
used for both chains). -/
def upperOf (pr : STPoint × STPoint) : STPoint := ⟨pr.2.s, pr.1.t⟩

/-- The ST boundary: the two chains and the boundary type.  `min_s_`,
`max_s_`, `min_t_`, `max_t_` are cached in C++; here they are the derived
functions `minT` / `maxT` below, which agree with the cached values on every
constructed boundary. -/
structure StBoundary where
  lowerPoints : List STPoint
  upperPoints : List STPoint
  boundaryType : BoundaryType
  deriving DecidableEq, Repr

/-- The default-constructed `StBoundary()`. -/
def StBoundary.empty : StBoundary := ⟨[], [], BoundaryType.UNKNOWN⟩

instance : Inhabited StBoundary := ⟨StBoundary.empty⟩

/-- `StBoundary::StBoundary(point_pairs)`: the constructor `CHECK`s
`IsValid` (modelled as `none` on failure), removes redundant pairs, and
stores the chains, using the pair's lower time stamp for both chain points.
The polygon `points_` is the lower chain followed by the reversed upper
chain and is not materialised separately here (it is determined by the
chains). -/
def mkStBoundary (pairs : List (STPoint × STPoint)) : Option StBoundary :=
  if isValid pairs then
    let reduced := removeRedundantPoints pairs
    some
      { lowerPoints := reduced.map fun pr => ⟨pr.1.s, pr.1.t⟩
        upperPoints := reduced.map fun pr => ⟨pr.2.s, pr.1.t⟩
        boundaryType := BoundaryType.UNKNOWN }
  else none

/-- `StBoundary::SetBoundaryType`. -/
def StBoundary.setType (b : StBoundary) (ty : BoundaryType) : StBoundary :=
  { b with boundaryType := ty }

/-- The sample pairs a boundary's chains represent. -/
def zipPairs (b : StBoundary) : List (STPoint × STPoint) :=
  b.lowerPoints.zip b.upperPoints

/-- `min_t_`: the first lower point's time. -/
def StBoundary.minT (b : StBoundary) : ℚ := (b.lowerPoints.getD 0 default).t

/-- `max_t_`: the last lower point's time. -/
def StBoundary.maxT (b : StBoundary) : ℚ :=
  (b.lowerPoints.getD (b.lowerPoints.length - 1) default).t

/-- Index found by `std::lower_bound` with comparator `p.t() < t` on a list
that is partitioned by that predicate (as every constructed chain is): the
length of the longest satisfying initial run. -/
def lbIdx (points : List STPoint) (t : ℚ) : ℕ :=
  (points.takeWhile fun p => decide (p.t < t)).length

/-- `StBoundary::GetIndexRange`.  Calling `front()` / `back()` on an empty
vector is undefined behaviour in C++; the model returns `none` there (the
function is only ever applied to constructed, hence nonempty, chains). -/
def getIndexRange (points : List STPoint) (t : ℚ) : Option (ℕ × ℕ) :=
  if points.isEmpty then none
  else if t < (points.getD 0 default).t ∨
      (points.getD (points.length - 1) default).t < t then none
  else
    let index := lbIdx points t
    if index = 0 then some (0, 0)
    else if index = points.length then
      some (points.length - 1, points.length - 1)
    else some (index - 1, index)

/-- Modelled from the spec: `common::math::CrossProd(p, a, b)`
(`math_utils.cc` is not among the extracted sources): the signed cross
product of the vectors `a - p` and `b - p` in Vec2d coordinates
(x = t, y = s). -/
def crossProd (p a b : STPoint) : ℚ :=
  (a.x - p.x) * (b.y - p.y) - (a.y - p.y) * (b.x - p.x)

/-- `StBoundary::IsPointInBoundary`. -/
def isPointInBoundary (b : StBoundary) (p : STPoint) : Bool :=
  if p.t ≤ b.minT ∨ b.maxT ≤ p.t then false
  else
    match getIndexRange b.lowerPoints p.t with
    | none => false
    | some (left, right) =>
      let checkUpper := crossProd p (b.upperPoints.getD left default)
        (b.upperPoints.getD right default)
      let checkLower := crossProd p (b.lowerPoints.getD left default)
        (b.lowerPoints.getD right default)
      decide (checkUpper * checkLower < 0)

/-- `StBoundary::GetUnblockSRange`.  Returns `some (s_upper, s_lower)` when
the C++ function returns `true` with those output values, `none` when it
returns `false`. -/
def getUnblockSRange (b : StBoundary) (currTime : ℚ) : Option (Dbl × Dbl) :=
  if currTime < b.minT ∨ b.maxT < currTime then
    some (Dbl.fin sHighLimit, Dbl.fin 0)
  else
    match getIndexRange b.lowerPoints currTime with
    | none => none
    | some (left, right) =>
      let ul := b.upperPoints.getD left default
      let ur := b.upperPoints.getD right default
      let ll := b.lowerPoints.getD left default
      let lr := b.lowerPoints.getD right default
      let r := Dbl.div (Dbl.fin (currTime - ul.t)) (Dbl.fin (ur.t - ul.t))
      let upperCrossS := Dbl.add (Dbl.fin ul.s) (r.mul (Dbl.fin (ur.s - ul.s)))
      let lowerCrossS := Dbl.add (Dbl.fin ll.s) (r.mul (Dbl.fin (lr.s - ll.s)))
      match b.boundaryType with
      | BoundaryType.STOP => some (lowerCrossS, Dbl.fin 0)
      | BoundaryType.YIELD => some (lowerCrossS, Dbl.fin 0)
      | BoundaryType.FOLLOW => some (lowerCrossS, Dbl.fin 0)
      | BoundaryType.OVERTAKE =>
        some (Dbl.fin sHighLimit, Dbl.fmax (Dbl.fin 0) upperCrossS)
      | _ => none

/-- `StBoundary::GetBoundarySRange`: `some (s_upper, s_lower)` on success. -/
def getBoundarySRange (b : StBoundary) (currTime : ℚ) : Option (Dbl × Dbl) :=
  if currTime < b.minT ∨ b.maxT < currTime then none
  else
    match getIndexRange b.lowerPoints currTime with
    | none => none
    | some (left, right) =>
      let ul := b.upperPoints.getD left default
      let ur := b.upperPoints.getD right default
      let ll := b.lowerPoints.getD left default
      let lr := b.lowerPoints.getD right default
      let r := Dbl.div (Dbl.fin (currTime - ul.t)) (Dbl.fin (ur.t - ul.t))
      let sUpper := Dbl.add (Dbl.fin ul.s) (r.mul (Dbl.fin (ur.s - ul.s)))
      let sLower := Dbl.add (Dbl.fin ll.s) (r.mul (Dbl.fin (lr.s - ll.s)))
      some (sUpper.fmin (Dbl.fin sHighLimit), sLower.fmax (Dbl.fin 0))

/-- Linear interpolation of a chain at time `t` between the bracketing
samples, written as the claims read it (a plain rational computation with no
NaN); meaningful for `minT < t ≤ maxT`, where the bracket `(idx - 1, idx)`
has distinct sample times. -/
def interpChainAt (points : List STPoint) (t : ℚ) : ℚ :=
  let idx := lbIdx points t
  let a := points.getD (idx - 1) default
  let b := points.getD idx default
  a.s + (t - a.t) / (b.t - a.t) * (b.s - a.s)

/-- `StBoundary::ExpandByS`: shift the lower chain down and the upper chain
up by `s` and rebuild through the validating constructor. -/
def expandByS (b : StBoundary) (s : ℚ) : Option StBoundary :=
  if b.lowerPoints.isEmpty then some StBoundary.empty
  else
    mkStBoundary
      ((b.lowerPoints.zip b.upperPoints).map fun pr =>
        (⟨pr.1.y - s, pr.1.x⟩, ⟨pr.2.y + s, pr.2.x⟩))

/-- `StBoundary::ExpandByT`: extrapolate one extra sample on each side from
the slope of the two nearest samples, clamp the new end pairs to keep a
positive width, and rebuild through the validating constructor. -/
def expandByT (b : StBoundary) (t : ℚ) : Option StBoundary :=
  if b.lowerPoints.isEmpty then some StBoundary.empty
  else
    let l0 := b.lowerPoints.getD 0 default
    let l1 := b.lowerPoints.getD 1 default
    let u0 := b.upperPoints.getD 0 default
    let u1 := b.upperPoints.getD 1 default
    let leftDeltaT := l1.t - l0.t
    let lowerLeftDeltaS := l1.s - l0.s
    let upperLeftDeltaS := u1.s - u0.s
    let frontLower : STPoint :=
      ⟨l0.y - t * lowerLeftDeltaS / leftDeltaT, l0.x - t⟩
    let frontUpper : STPoint :=
      ⟨u0.y - t * upperLeftDeltaS / leftDeltaT, u0.x - t⟩
    let frontLower : STPoint :=
      ⟨min (frontUpper.s - kMinSEpsilon) frontLower.s, frontLower.t⟩
    let n := b.lowerPoints.length
    let lb1 := b.lowerPoints.getD (n - 1) default
    let lb2 := b.lowerPoints.getD (n - 2) default
    let ub1 := b.upperPoints.getD (n - 1) default
    let ub2 := b.upperPoints.getD (n - 2) default
    let rightDeltaT := lb1.t - lb2.t
    let lowerRightDeltaS := lb1.s - lb2.s
    let upperRightDeltaS := ub1.s - ub2.s
    let backLower : STPoint :=
      ⟨lb1.y + t * lowerRightDeltaS / rightDeltaT, lb1.x + t⟩
    let backUpper : STPoint :=
      ⟨ub1.y + t * upperRightDeltaS / rightDeltaT, ub1.x + t⟩
    let backUpper : STPoint :=
      ⟨max backUpper.s (backLower.s + kMinSEpsilon), backUpper.t⟩
    mkStBoundary
      ((frontLower, frontUpper) :: (b.lowerPoints.zip b.upperPoints) ++
        [(backLower, backUpper)])

/-- `StBoundary::GenerateStBoundary`: mismatched or too-short chains give the
default-constructed boundary, otherwise the pairs go through the validating
constructor. -/
def generateStBoundary (lower upper : List STPoint) : Option StBoundary :=
  if lower.length ≠ upper.length ∨ lower.length < 2 then
    some StBoundary.empty
  else
    mkStBoundary
      ((lower.zip upper).map fun pr => (⟨pr.1.s, pr.1.t⟩, ⟨pr.2.s, pr.2.t⟩))

/-- `StBoundary::CutOffByT`: keep exactly the sample pairs whose lower time
is not below the cutoff (the loop skips `lower_points_[i].t() < t`), then
regenerate. -/
def cutOffByT (b : StBoundary) (t : ℚ) : Option StBoundary :=
  let kept := (b.lowerPoints.zip b.upperPoints).filter fun pr =>
    decide (t ≤ pr.1.t)
  generateStBoundary (kept.map Prod.fst) (kept.map Prod.snd)

/-!
Model of the planning cycle controller (`Planning::RunOnce`,
`Planning::PublishPlanningPb`, `Planning::SetFallbackTrajectory`,
`Planning::Plan` in planning.cc).  The collaborators that run after the
readiness gate (vehicle-state estimator, stitcher, frame builder, traffic
decider, optimizer) are external to the extracted sources; the continuation
of the cycle past the gate is therefore a parameter of `runOnce`, and the
trajectory assembly of `Planning::Plan` is modelled on the lists of
trajectory points it manipulates.
-/

/-- The fields of a trajectory point that the modelled code reads or
writes: planar position, arc length, speed, acceleration and relative
time. -/
structure TrajPoint where
  px : ℚ := 0
  py : ℚ := 0
  ps : ℚ := 0
  v : ℚ := 0
  a : ℚ := 0
  relativeTime : ℚ := 0
  deriving DecidableEq, Repr

instance : Inhabited TrajPoint := ⟨{}⟩

/-- The fields of the published `ADCTrajectory` message used by the
claims. -/
structure ADCTrajectory where
  headerTimestamp : ℚ := 0
  points : List TrajPoint := []
  notReadyReason : Option String := none
  estopReason : Option String := none
  isReplan : Bool := false
  gearDrive : Bool := false
  deriving DecidableEq, Repr

instance : Inhabited ADCTrajectory := ⟨{}⟩

/-- The gflags the modelled code branches on, plus
`FLAGS_navigation_fallback_cruise_time` (its default lives in
planning_gflags.cc, outside the extracted sources; the spec calls it the
bounded horizon of the cruise fallback). -/
structure Flags where
  usePlanningFallback : Bool
  useNavigationMode : Bool
  planningTestMode : Bool
  navigationFallbackCruiseTime : ℚ
  deriving DecidableEq, Repr

/-- One cruise-fallback point: `MakePathPoint(s, 0, 0, 0, 0, 0, 0)` with
`s = t * v`, speed `v`, zero acceleration and relative time `t`. -/
def cruisePoint (v t : ℚ) : TrajPoint :=
  { px := t * v, py := 0, ps := t * v, v := v, a := 0, relativeTime := t }

/-- The navigation-mode fallback loop `for (t = 0; t <
navigation_fallback_cruise_time; t += 0.1)`: samples at `k / 10` for every
natural `k` with `k / 10 < T`, i.e. `k < ⌈10 T⌉₊` (the C++ accumulates the
literal `0.1`; the exact-rational model keeps the step exact). -/
def cruisePoints (v T : ℚ) : List TrajPoint :=
  (List.range ⌈10 * T⌉₊).map fun k : ℕ => cruisePoint v ((k : ℚ) / 10)

/-- Shift a point's relative time by `dt`. -/
def tShift (dt : ℚ) (p : TrajPoint) : TrajPoint :=
  { p with relativeTime := p.relativeTime + dt }

/-- `Planning::SetFallbackTrajectory`.  `lastPlanning` is the latest message
observed on the planning adapter (`none` when the adapter is null or
empty). -/
def setFallbackTrajectory (f : Flags) (lastPlanning : Option ADCTrajectory)
    (v : ℚ) (pb : ADCTrajectory) : ADCTrajectory :=
  if f.useNavigationMode then
    { pb with points := pb.points ++ cruisePoints v f.navigationFallbackCruiseTime }
  else
    match lastPlanning with
    | some traj =>
      let currentTimeStamp := pb.headerTimestamp
      let preTimeStamp := traj.headerTimestamp
      { pb with
          points := pb.points ++
            traj.points.map (tShift (preTimeStamp - currentTimeStamp)) }
    | none => pb

/-- `Planning::PublishPlanningPb`: stamp the header and gear, substitute the
fallback when enabled and the trajectory is empty, and (outside test mode)
re-base every relative time by the drift between the nominal timestamp and
the wall clock `now`. -/
def publishPlanningPb (f : Flags) (lastPlanning : Option ADCTrajectory)
    (v : ℚ) (now : ℚ) (pb0 : ADCTrajectory) (timestamp : ℚ) : ADCTrajectory :=
  let pb1 := { pb0 with headerTimestamp := timestamp, gearDrive := true }
  let pb2 :=
    if f.usePlanningFallback ∧ pb1.points = [] then
      setFallbackTrajectory f lastPlanning v pb1
    else pb1
  if f.planningTestMode then pb2
  else { pb2 with points := pb2.points.map (tShift (timestamp - now)) }

/-- A localization message (contents irrelevant to the gate). -/
structure Localization where
  timestamp : ℚ := 0
  deriving DecidableEq, Repr

/-- A chassis message (contents irrelevant to the gate). -/
structure Chassis where
  timestamp : ℚ := 0
  deriving DecidableEq, Repr

/-- A routing response message (contents irrelevant to the gate). -/
structure RoutingResponse where
  timestamp : ℚ := 0
  deriving DecidableEq, Repr

/-- The adapter snapshot observed at the start of `Planning::RunOnce`;
`none` models an `Empty()` adapter. -/
structure PlanningInput where
  localization : Option Localization
  chassis : Option Chassis
  routingResponse : Option RoutingResponse
  hasMap : Bool
  lastPlanning : Option ADCTrajectory
  vehicleVelocity : ℚ
  startTimestamp : ℚ
  now : ℚ
  deriving DecidableEq, Repr

/-- Cross-cycle state owned by the controller. -/
structure PlanningState where
  lastPublishableTrajectory : Option (List TrajPoint)
  frameHistory : List ℕ
  deriving DecidableEq, Repr

/-- The readiness gate of `Planning::RunOnce` (lines 263-272): the first
missing input determines the not-ready reason. -/
def gateReason (f : Flags) (inp : PlanningInput) : Option String :=
  if inp.localization.isNone then some "localization not ready"
  else if inp.chassis.isNone then some "chassis not ready"
  else if ¬f.useNavigationMode ∧ inp.routingResponse.isNone then
    some "routing not ready"
  else if ¬inp.hasMap then some "map not ready"
  else none

/-- `Planning::RunOnce`: when the gate finds a reason, a not-ready message
carrying exactly that reason is published and the tick ends with the
controller state untouched; otherwise the rest of the cycle `cont`
(vehicle-state update, stitching, frame construction, planning, history
archival — external collaborators) runs. -/
def runOnce (f : Flags)
    (cont : PlanningInput → PlanningState → ADCTrajectory × PlanningState)
    (inp : PlanningInput) (st : PlanningState) :
    ADCTrajectory × PlanningState :=
  match gateReason f inp with
  | some reason =>
    (publishPlanningPb f inp.lastPlanning inp.vehicleVelocity inp.now
      { notReadyReason := some reason } inp.startTimestamp, st)
  | none => cont inp st

/-- Modelled from the spec: the trajectory assembly on the success path of
`Planning::Plan` (lines 638-655).  `PublishableTrajectory` and its
`PrependTrajectoryPoints` / `PopulateTrajectoryProtobuf` live outside the
extracted sources; per the spec the published trajectory is the selected
candidate's optimized trajectory with the stitching trajectory, all but its
last point, prepended. -/
def planAssemble (stitching candidate : List TrajPoint) : List TrajPoint :=
  stitching.dropLast ++ candidate

/-- The points the fallback substitution produces, as the claim reads them:
the cruise profile in navigation mode, else the previous published points
re-based by the header-timestamp difference, else nothing. -/
def fallbackBase (f : Flags) (lastPlanning : Option ADCTrajectory)
    (v ts : ℚ) : List TrajPoint :=
  if f.useNavigationMode then cruisePoints v f.navigationFallbackCruiseTime
  else
    match lastPlanning with
    | some traj => traj.points.map (tShift (traj.headerTimestamp - ts))
    | none => []

/-- Structural invariant of every constructed boundary (claim C10): chains of
equal length at least two, equal times at equal indices, lower `s` at most
upper `s` at every index, and times strictly increasing with the
`kMinDeltaT` gap along the chain. -/
structure StInv (b : StBoundary) : Prop where
  lenEq : b.lowerPoints.length = b.upperPoints.length
  two : 2 ≤ b.lowerPoints.length
  sameT : ∀ i, i < b.lowerPoints.length →
    (b.upperPoints.getD i default).t = (b.lowerPoints.getD i default).t
  sLe : ∀ i, i < b.lowerPoints.length →
    (b.lowerPoints.getD i default).s ≤ (b.upperPoints.getD i default).s
  tGap : b.lowerPoints.Pairwise fun p q => p.t + kMinDeltaT < q.t

/-! Concrete data used by the closed-form checks below. -/

/-- A two-sample valid input: lower `s` 1, 3 and upper `s` 2, 5 at times 0
and 1. -/
def qPairs : List (STPoint × STPoint) :=
  [(⟨1, 0⟩, ⟨2, 0⟩), (⟨3, 1⟩, ⟨5, 1⟩)]

/-- The boundary constructed from `qPairs`. -/
def qB : StBoundary :=
  ⟨[⟨1, 0⟩, ⟨3, 1⟩], [⟨2, 0⟩, ⟨5, 1⟩], BoundaryType.UNKNOWN⟩

/-- Two degenerate pairs whose consecutive time gap is exactly
`kMinDeltaT`. -/
def gapPairs : List (STPoint × STPoint) :=
  [(⟨0, 0⟩, ⟨0, 0⟩), (⟨0, 1 / 1000000⟩, ⟨0, 1 / 1000000⟩)]

/-- A valid four-pair input on which simplification is not idempotent: the
construction keeps pairs 1, 2 and 4, but the middle survivor lies within the
`kMaxDist` tolerance of the segment joining the two outer survivors, so any
rebuild of the boundary from its own chains drops it. -/
def wigglePairs : List (STPoint × STPoint) :=
  [(⟨0, 0⟩, ⟨1, 0⟩),
    (⟨3 / 10, 1 / 1000⟩, ⟨13 / 10, 1 / 1000⟩),
    (⟨18 / 100, 2 / 1000⟩, ⟨118 / 100, 2 / 1000⟩),
    (⟨25 / 100, 3 / 1000⟩, ⟨125 / 100, 3 / 1000⟩)]

/-- The boundary constructed from `wigglePairs` (the third input pair is
removed by simplification). -/
def wiggleB : StBoundary :=
  ⟨[⟨0, 0⟩, ⟨3 / 10, 1 / 1000⟩, ⟨1 / 4, 3 / 1000⟩],
    [⟨1, 0⟩, ⟨13 / 10, 1 / 1000⟩, ⟨5 / 4, 3 / 1000⟩], BoundaryType.UNKNOWN⟩

/-- Flags with the planning fallback enabled, navigation mode off and the
deterministic test mode on. -/
def fbFlags : Flags := ⟨true, false, true, 8⟩

/-- A trajectory point at planar position `(x, 0)`. -/
def tpx (x : ℚ) : TrajPoint := { px := x }

/-- A controller input whose localization snapshot is empty and whose other
inputs are present. -/
def noLocInput : PlanningInput :=
  { localization := none
    chassis := some {}
    routingResponse := some {}
    hasMap := true
    lastPlanning := none
    vehicleVelocity := 0
    startTimestamp := 7
    now := 7 }

/-- A controller state with one archived frame. -/
def someState : PlanningState := ⟨some [tpx 1], [3]⟩

/-- A cycle continuation that archives a frame (used to check that the gate
never reaches it). -/
def archivingCont (inp : PlanningInput) (st : PlanningState) :
    ADCTrajectory × PlanningState :=
  ({ headerTimestamp := inp.startTimestamp },
    { st with frameHistory := st.frameHistory ++ [0] })

/-! Structural lemmas about `removeRedundantPoints`. -/

theorem getLast?_cons_of_ne {α : Type} (a : α) (l : List α) (h : l ≠ []) :
    (a :: l).getLast? = l.getLast? := by
  cases l with
  | nil => exact absurd rfl h
  | cons b m => simp

theorem rrpAux_sublist (lk : STPoint × STPoint)
    (l : List (STPoint × STPoint)) : (rrpAux lk l).Sublist l := by
  induction l generalizing lk with
  | nil => simp [rrpAux]
  | cons a rest ih =>
    cases rest with
    | nil => simp [rrpAux]
    | cons b rest2 =>
      rw [rrpAux]
      by_cases h : keepPair lk a b = true
      · simpa [h] using (ih a).cons₂ a
      · simpa [h] using (ih lk).cons a

theorem rrpAux_ne_nil (lk : STPoint × STPoint)
    (l : List (STPoint × STPoint)) (h : l ≠ []) : rrpAux lk l ≠ [] := by
  induction l generalizing lk with
  | nil => exact absurd rfl h
  | cons a rest ih =>
    cases rest with
    | nil => simp [rrpAux]
    | cons b rest2 =>
      rw [rrpAux]
      by_cases hk : keepPair lk a b = true
      · simp [hk]
      · simpa [hk] using ih lk (by simp)

theorem rrpAux_getLast? (lk : STPoint × STPoint)
    (l : List (STPoint × STPoint)) (h : l ≠ []) :
    (rrpAux lk l).getLast? = l.getLast? := by
  induction l generalizing lk with
  | nil => exact absurd rfl h
  | cons a rest ih =>
    cases rest with
    | nil => simp [rrpAux]
    | cons b rest2 =>
      rw [rrpAux]
      by_cases hk : keepPair lk a b = true
      · rw [if_pos hk,
          getLast?_cons_of_ne a _ (rrpAux_ne_nil a (b :: rest2) (by simp)),
          ih a (by simp), getLast?_cons_of_ne a (b :: rest2) (by simp)]
      · rw [if_neg hk, ih lk (by simp),
          getLast?_cons_of_ne a (b :: rest2) (by simp)]

theorem removeRedundantPoints_sublist (pairs : List (STPoint × STPoint)) :
    (removeRedundantPoints pairs).Sublist pairs := by
  rw [removeRedundantPoints.eq_def]
  by_cases h : pairs.length ≤ 2
  · simp [h]
  · rw [if_neg h]
    cases pairs with
    | nil => simp
    | cons p0 rest => exact (rrpAux_sublist p0 rest).cons₂ p0

theorem removeRedundantPoints_head? (pairs : List (STPoint × STPoint)) :
    (removeRedundantPoints pairs).head? = pairs.head? := by
  rw [removeRedundantPoints.eq_def]
  by_cases h : pairs.length ≤ 2
  · simp [h]
  · rw [if_neg h]
    cases pairs with
    | nil => rfl
    | cons p0 rest => simp

theorem removeRedundantPoints_getLast? (pairs : List (STPoint × STPoint)) :
    (removeRedundantPoints pairs).getLast? = pairs.getLast? := by
  rw [removeRedundantPoints.eq_def]
  by_cases h : pairs.length ≤ 2
  · simp [h]
  · rw [if_neg h]
    cases pairs with
    | nil => rfl
    | cons p0 rest =>
      have hrest : rest ≠ [] := by
        intro hr
        rw [hr] at h
        simp at h
      rw [getLast?_cons_of_ne p0 _ (rrpAux_ne_nil p0 rest hrest),
        rrpAux_getLast? p0 rest hrest, getLast?_cons_of_ne p0 rest hrest]

theorem removeRedundantPoints_two_le (pairs : List (STPoint × STPoint))
    (h : 2 ≤ pairs.length) : 2 ≤ (removeRedundantPoints pairs).length := by
  rw [removeRedundantPoints.eq_def]
  by_cases h2 : pairs.length ≤ 2
  · simpa [h2] using h
  · rw [if_neg h2]
    cases pairs with
    | nil => simp at h
    | cons p0 rest =>
      have hrest : rest ≠ [] := by
        intro hr
        rw [hr] at h2
        simp at h2
      have := rrpAux_ne_nil p0 rest hrest
      cases hne : rrpAux p0 rest with
      | nil => exact absurd hne this
      | cons x xs => simp [hne]

/-! Lemmas about `isValid`. -/

theorem consecAll_eq_true_iff (l : List (STPoint × STPoint)) :
    consecAll l = true ↔ l.Chain' gapRel := by
  match l with
  | [] => simp [consecAll]
  | [a] => simp [consecAll]
  | a :: b :: rest =>
    rw [consecAll, Bool.and_eq_true, consecAll_eq_true_iff (b :: rest),
      List.chain'_cons]
    unfold consecOk gapRel
    simp

theorem gapRel_trans : ∀ a b c, gapRel a b → gapRel b c → gapRel a c := by
  intro a b c hab hbc
  unfold gapRel at *
  have h1 : min b.1.t b.2.t ≤ max b.1.t b.2.t := min_le_max
  have h2 : (0 : ℚ) < kMinDeltaT := by norm_num [kMinDeltaT]
  linarith

theorem chain'_gapRel_pairwise (l : List (STPoint × STPoint))
    (h : l.Chain' gapRel) : l.Pairwise gapRel := by
  haveI : IsTrans (STPoint × STPoint) gapRel := ⟨gapRel_trans⟩
  exact List.chain'_iff_pairwise.mp h

theorem isValid_eq_true_iff (pairs : List (STPoint × STPoint)) :
    isValid pairs = true ↔
      2 ≤ pairs.length ∧
        (∀ pr ∈ pairs,
          pr.1.s ≤ pr.2.s ∧ |pr.1.t - pr.2.t| ≤ kStBoundaryEpsilon) ∧
        pairs.Chain' gapRel := by
  unfold isValid
  rw [Bool.and_eq_true, Bool.and_eq_true, consecAll_eq_true_iff,
    List.all_eq_true]
  unfold pairOk
  simp [and_assoc]

theorem mkStBoundary_eq_none_iff (pairs : List (STPoint × STPoint)) :
    mkStBoundary pairs = none ↔ isValid pairs = false := by
  unfold mkStBoundary
  by_cases h : isValid pairs = true
  · simp [h]
  · simp [h, Bool.eq_false_iff.mpr h]

/-! Lemmas about `lbIdx` (the `std::lower_bound` index). -/

theorem lbIdx_cons (p : STPoint) (ps : List STPoint) (t : ℚ) :
    lbIdx (p :: ps) t = if p.t < t then lbIdx ps t + 1 else 0 := by
  unfold lbIdx
  by_cases h : p.t < t <;> simp [List.takeWhile_cons, h]

theorem lbIdx_le (ps : List STPoint) (t : ℚ) : lbIdx ps t ≤ ps.length := by
  induction ps with
  | nil => simp [lbIdx]
  | cons p ps ih =>
    rw [lbIdx_cons]
    by_cases h : p.t < t
    · simpa [h] using ih
    · simp [h]

theorem lbIdx_spec_lt (ps : List STPoint) (t : ℚ) :
    ∀ i, i < lbIdx ps t → (ps.getD i default).t < t := by
  induction ps with
  | nil => simp [lbIdx]
  | cons p ps ih =>
    intro i hi
    rw [lbIdx_cons] at hi
    by_cases h : p.t < t
    · rw [if_pos h] at hi
      cases i with
      | zero => simpa using h
      | succ j =>
        rw [List.getD_cons_succ]
        exact ih j (Nat.lt_of_succ_lt_succ hi)
    · rw [if_neg h] at hi
      exact absurd hi (Nat.not_lt_zero i)

theorem lbIdx_spec_ge (ps : List STPoint) (t : ℚ)
    (h : lbIdx ps t < ps.length) :
    ¬(ps.getD (lbIdx ps t) default).t < t := by
  induction ps with
  | nil => simp at h
  | cons p ps ih =>
    rw [lbIdx_cons] at h ⊢
    by_cases hp : p.t < t
    · rw [if_pos hp] at h ⊢
      rw [List.getD_cons_succ]
      exact ih (Nat.lt_of_succ_lt_succ h)
    · rw [if_neg hp]
      simpa using hp

theorem lbIdx_eq (ps : List STPoint) (t : ℚ) (k : ℕ) (hk : k ≤ ps.length)
    (h1 : ∀ i, i < k → (ps.getD i default).t < t)
    (h2 : k < ps.length → ¬(ps.getD k default).t < t) :
    lbIdx ps t = k := by
  rcases Nat.lt_trichotomy (lbIdx ps t) k with h | h | h
  · exact absurd (h1 _ h) (lbIdx_spec_ge ps t (lt_of_lt_of_le h hk))
  · exact h
  · exact absurd (lbIdx_spec_lt ps t k h)
      (h2 (lt_of_lt_of_le h (lbIdx_le ps t)))

/-- Strict monotonicity of the sample times, in `getD` form, from a
`Pairwise` chain hypothesis. -/
theorem pairwise_t_mono (ps : List STPoint)
    (hp : ps.Pairwise fun p q => p.t + kMinDeltaT < q.t)
    (i j : ℕ) (hij : i < j) (hj : j < ps.length) :
    (ps.getD i default).t < (ps.getD j default).t := by
  have hi : i < ps.length := lt_trans hij hj
  rw [List.getD_eq_getElem ps default hi, List.getD_eq_getElem ps default hj]
  have := (List.pairwise_iff_getElem.mp hp) i j hi hj hij
  have hd : (0 : ℚ) < kMinDeltaT := by norm_num [kMinDeltaT]
  linarith

/-! The constructor establishes the structural invariant. -/

theorem mkStBoundary_chains (pairs : List (STPoint × STPoint))
    (b : StBoundary) (h : mkStBoundary pairs = some b) :
    b.lowerPoints = (removeRedundantPoints pairs).map lowerOf ∧
      b.upperPoints = (removeRedundantPoints pairs).map upperOf ∧
      b.boundaryType = BoundaryType.UNKNOWN ∧ isValid pairs = true := by
  unfold mkStBoundary at h
  by_cases hv : isValid pairs = true
  · rw [if_pos hv, Option.some.injEq] at h
    rw [← h]
    exact ⟨rfl, rfl, rfl, hv⟩
  · rw [if_neg hv] at h
    cases h

theorem pairwise_lower_t_of_valid (pairs : List (STPoint × STPoint))
    (hv : isValid pairs = true) :
    ((removeRedundantPoints pairs).map lowerOf).Pairwise
      fun p q => p.t + kMinDeltaT < q.t := by
  have hc : pairs.Chain' gapRel := ((isValid_eq_true_iff pairs).mp hv).2.2
  have hp : (removeRedundantPoints pairs).Pairwise gapRel :=
    (chain'_gapRel_pairwise pairs hc).sublist
      (removeRedundantPoints_sublist pairs)
  rw [List.pairwise_map]
  refine hp.imp ?_
  intro a c hac
  unfold gapRel at hac
  have h1 : a.1.t ≤ max a.1.t a.2.t := le_max_left _ _
  have h2 : min c.1.t c.2.t ≤ c.1.t := min_le_left _ _
  show a.1.t + kMinDeltaT < c.1.t
  linarith

theorem mkStBoundary_inv (pairs : List (STPoint × STPoint)) (b : StBoundary)
    (h : mkStBoundary pairs = some b) : StInv b := by
  obtain ⟨hl, hu, _, hv⟩ := mkStBoundary_chains pairs b h
  obtain ⟨hlen2, hpairOk, _⟩ := (isValid_eq_true_iff pairs).mp hv
  have hsub := removeRedundantPoints_sublist pairs
  refine ⟨?_, ?_, ?_, ?_, ?_⟩
  · rw [hl, hu, List.length_map, List.length_map]
  · rw [hl, List.length_map]
    exact removeRedundantPoints_two_le pairs hlen2
  · intro i hi
    rw [hl, List.length_map] at hi
    rw [hl, hu, List.getD_eq_getElem _ default (by simpa using hi),
      List.getD_eq_getElem _ default (by simpa using hi),
      List.getElem_map, List.getElem_map]
    rfl
  · intro i hi
    rw [hl, List.length_map] at hi
    rw [hl, hu, List.getD_eq_getElem _ default (by simpa using hi),
      List.getD_eq_getElem _ default (by simpa using hi),
      List.getElem_map, List.getElem_map]
    have hmem : (removeRedundantPoints pairs)[i] ∈ pairs :=
      hsub.subset (List.getElem_mem hi)
    exact (hpairOk _ hmem).1
  · rw [hl]
    exact pairwise_lower_t_of_valid pairs hv

/-! Facts derived from the structural invariant, and the behaviour of
`getIndexRange` on an invariant chain. -/

theorem StInv.lower_ne_nil {b : StBoundary} (hinv : StInv b) :
    b.lowerPoints ≠ [] := by
  intro h
  have := hinv.two
  rw [h] at this
  simp at this

theorem StInv.minT_lt_maxT {b : StBoundary} (hinv : StInv b) :
    b.minT < b.maxT := by
  unfold StBoundary.minT StBoundary.maxT
  have h2 := hinv.two
  exact pairwise_t_mono _ hinv.tGap 0 (b.lowerPoints.length - 1)
    (by omega) (by omega)

theorem lbIdx_lt_length {b : StBoundary} (hinv : StInv b) (t : ℚ)
    (hhi : t ≤ b.maxT) : lbIdx b.lowerPoints t < b.lowerPoints.length := by
  have hle := lbIdx_le b.lowerPoints t
  rcases lt_or_eq_of_le hle with h | h
  · exact h
  · exfalso
    have h2 := hinv.two
    have := lbIdx_spec_lt b.lowerPoints t (b.lowerPoints.length - 1)
      (by omega)
    unfold StBoundary.maxT at hhi
    exact absurd (lt_of_lt_of_le this hhi) (lt_irrefl _)

theorem lbIdx_pos {b : StBoundary} (hinv : StInv b) (t : ℚ)
    (hlo : b.minT < t) : 1 ≤ lbIdx b.lowerPoints t := by
  by_contra h
  have h0 : lbIdx b.lowerPoints t = 0 := by omega
  have h2 := hinv.two
  have := lbIdx_spec_ge b.lowerPoints t (by omega)
  rw [h0] at this
  unfold StBoundary.minT at hlo
  exact this hlo

theorem lbIdx_at_sample {b : StBoundary} (hinv : StInv b) (k : ℕ)
    (hk : k < b.lowerPoints.length) :
    lbIdx b.lowerPoints (b.lowerPoints.getD k default).t = k :=
  lbIdx_eq _ _ k (le_of_lt hk)
    (fun i hik => pairwise_t_mono _ hinv.tGap i k hik hk)
    (fun _ => lt_irrefl _)

theorem lbIdx_upper_eq {b : StBoundary} (hinv : StInv b) (t : ℚ) :
    lbIdx b.upperPoints t = lbIdx b.lowerPoints t := by
  refine lbIdx_eq _ _ _ ?_ ?_ ?_
  · rw [← hinv.lenEq]
    exact lbIdx_le _ _
  · intro i hik
    rw [hinv.sameT i (lt_of_lt_of_le hik
      (le_trans (lbIdx_le _ _) (le_refl _)))]
    · exact lbIdx_spec_lt _ _ i hik
  · intro hlt
    rw [← hinv.lenEq] at hlt
    rw [hinv.sameT _ hlt]
    exact lbIdx_spec_ge _ _ hlt

theorem getIndexRange_inv {b : StBoundary} (hinv : StInv b) (t : ℚ)
    (hlo : b.minT ≤ t) (hhi : t ≤ b.maxT) :
    getIndexRange b.lowerPoints t =
      if lbIdx b.lowerPoints t = 0 then some (0, 0)
      else some (lbIdx b.lowerPoints t - 1, lbIdx b.lowerPoints t) := by
  unfold getIndexRange
  have hne : b.lowerPoints.isEmpty = false := by
    cases h : b.lowerPoints with
    | nil => exact absurd h hinv.lower_ne_nil
    | cons x xs => rfl
  rw [if_neg (by simp [hne])]
  have hguard : ¬(t < (b.lowerPoints.getD 0 default).t ∨
      (b.lowerPoints.getD (b.lowerPoints.length - 1) default).t < t) := by
    push_neg
    exact ⟨hlo, hhi⟩
  rw [if_neg hguard]
  have hlt := lbIdx_lt_length hinv t hhi
  by_cases h0 : lbIdx b.lowerPoints t = 0
  · simp [h0]
  · rw [if_neg h0, if_neg h0, if_neg (by omega)]

/-! Interpolation lemmas: inside `(min_t, max_t]` the bracketing indices are
distinct and the interpolation is NaN-free; at `t = min_t` the ratio is
`0 / 0` and NaN flows through the results. -/

theorem getIndexRange_interior {b : StBoundary} (hinv : StInv b) (t : ℚ)
    (hlo : b.minT < t) (hhi : t ≤ b.maxT) :
    getIndexRange b.lowerPoints t =
      some (lbIdx b.lowerPoints t - 1, lbIdx b.lowerPoints t) := by
  rw [getIndexRange_inv hinv t (le_of_lt hlo) hhi]
  have := lbIdx_pos hinv t hlo
  rw [if_neg (by omega)]

theorem getBoundarySRange_interior {b : StBoundary} (hinv : StInv b) (t : ℚ)
    (hlo : b.minT < t) (hhi : t ≤ b.maxT) :
    getBoundarySRange b t =
      some (Dbl.fin (min (interpChainAt b.upperPoints t) sHighLimit),
        Dbl.fin (max (interpChainAt b.lowerPoints t) 0)) := by
  have hk1 : 1 ≤ lbIdx b.lowerPoints t := lbIdx_pos hinv t hlo
  have hkn : lbIdx b.lowerPoints t < b.lowerPoints.length :=
    lbIdx_lt_length hinv t hhi
  have hkm : lbIdx b.lowerPoints t - 1 < b.lowerPoints.length := by omega
  have htl : (b.upperPoints.getD (lbIdx b.lowerPoints t - 1) default).t =
      (b.lowerPoints.getD (lbIdx b.lowerPoints t - 1) default).t :=
    hinv.sameT _ hkm
  have htr : (b.upperPoints.getD (lbIdx b.lowerPoints t) default).t =
      (b.lowerPoints.getD (lbIdx b.lowerPoints t) default).t :=
    hinv.sameT _ hkn
  have hmono : (b.lowerPoints.getD (lbIdx b.lowerPoints t - 1) default).t <
      (b.lowerPoints.getD (lbIdx b.lowerPoints t) default).t :=
    pairwise_t_mono _ hinv.tGap _ _ (by omega) hkn
  have hdenom : (b.upperPoints.getD (lbIdx b.lowerPoints t) default).t -
      (b.upperPoints.getD (lbIdx b.lowerPoints t - 1) default).t ≠ 0 := by
    rw [htl, htr]
    intro h
    exact absurd (by linarith : (b.lowerPoints.getD
      (lbIdx b.lowerPoints t - 1) default).t =
      (b.lowerPoints.getD (lbIdx b.lowerPoints t) default).t) (ne_of_lt hmono)
  unfold getBoundarySRange
  rw [if_neg (by push_neg; exact ⟨le_of_lt hlo, hhi⟩),
    getIndexRange_interior hinv t hlo hhi]
  simp only [Dbl.div, if_neg hdenom, Dbl.mul, Dbl.add, Dbl.fmin, Dbl.fmax]
  simp only [interpChainAt, lbIdx_upper_eq hinv t, htl, htr]

theorem getUnblockSRange_interior {b : StBoundary} (hinv : StInv b) (t : ℚ)
    (hlo : b.minT < t) (hhi : t ≤ b.maxT) :
    getUnblockSRange b t =
      match b.boundaryType with
      | BoundaryType.STOP =>
        some (Dbl.fin (interpChainAt b.lowerPoints t), Dbl.fin 0)
      | BoundaryType.YIELD =>
        some (Dbl.fin (interpChainAt b.lowerPoints t), Dbl.fin 0)
      | BoundaryType.FOLLOW =>
        some (Dbl.fin (interpChainAt b.lowerPoints t), Dbl.fin 0)
      | BoundaryType.OVERTAKE =>
        some (Dbl.fin sHighLimit,
          Dbl.fin (max 0 (interpChainAt b.upperPoints t)))
      | _ => none := by
  have hk1 : 1 ≤ lbIdx b.lowerPoints t := lbIdx_pos hinv t hlo
  have hkn : lbIdx b.lowerPoints t < b.lowerPoints.length :=
    lbIdx_lt_length hinv t hhi
  have hkm : lbIdx b.lowerPoints t - 1 < b.lowerPoints.length := by omega
  have htl : (b.upperPoints.getD (lbIdx b.lowerPoints t - 1) default).t =
      (b.lowerPoints.getD (lbIdx b.lowerPoints t - 1) default).t :=
    hinv.sameT _ hkm
  have htr : (b.upperPoints.getD (lbIdx b.lowerPoints t) default).t =
      (b.lowerPoints.getD (lbIdx b.lowerPoints t) default).t :=
    hinv.sameT _ hkn
  have hmono : (b.lowerPoints.getD (lbIdx b.lowerPoints t - 1) default).t <
      (b.lowerPoints.getD (lbIdx b.lowerPoints t) default).t :=
    pairwise_t_mono _ hinv.tGap _ _ (by omega) hkn
  have hdenom : (b.upperPoints.getD (lbIdx b.lowerPoints t) default).t -
      (b.upperPoints.getD (lbIdx b.lowerPoints t - 1) default).t ≠ 0 := by
    rw [htl, htr]
    intro h
    exact absurd (by linarith : (b.lowerPoints.getD
      (lbIdx b.lowerPoints t - 1) default).t =
      (b.lowerPoints.getD (lbIdx b.lowerPoints t) default).t) (ne_of_lt hmono)
  unfold getUnblockSRange
  rw [if_neg (by push_neg; exact ⟨le_of_lt hlo, hhi⟩),
    getIndexRange_interior hinv t hlo hhi]
  simp only [Dbl.div, if_neg hdenom, Dbl.mul, Dbl.add, Dbl.fmax]
  simp only [interpChainAt, lbIdx_upper_eq hinv t, htl, htr]

theorem getBoundarySRange_at_minT {b : StBoundary} (hinv : StInv b) :
    getBoundarySRange b b.minT =
      some (Dbl.fin sHighLimit, Dbl.fin 0) := by
  have hmax := hinv.minT_lt_maxT
  have h2 := hinv.two
  have hidx : getIndexRange b.lowerPoints b.minT = some (0, 0) := by
    rw [getIndexRange_inv hinv b.minT (le_refl _) (le_of_lt hmax)]
    have h0 : lbIdx b.lowerPoints b.minT = 0 := by
      unfold StBoundary.minT
      exact lbIdx_at_sample hinv 0 (by omega)
    rw [if_pos h0]
  unfold getBoundarySRange
  rw [if_neg (by push_neg; exact ⟨le_refl _, le_of_lt hmax⟩), hidx]
  simp [Dbl.div, Dbl.mul, Dbl.add, Dbl.fmin, Dbl.fmax, sub_self]

theorem getUnblockSRange_at_minT {b : StBoundary} (hinv : StInv b) :
    getUnblockSRange b b.minT =
      match b.boundaryType with
      | BoundaryType.STOP => some (Dbl.nan, Dbl.fin 0)
      | BoundaryType.YIELD => some (Dbl.nan, Dbl.fin 0)
      | BoundaryType.FOLLOW => some (Dbl.nan, Dbl.fin 0)
      | BoundaryType.OVERTAKE => some (Dbl.fin sHighLimit, Dbl.fin 0)
      | _ => none := by
  have hmax := hinv.minT_lt_maxT
  have h2 := hinv.two
  have hidx : getIndexRange b.lowerPoints b.minT = some (0, 0) := by
    rw [getIndexRange_inv hinv b.minT (le_refl _) (le_of_lt hmax)]
    have h0 : lbIdx b.lowerPoints b.minT = 0 := by
      unfold StBoundary.minT
      exact lbIdx_at_sample hinv 0 (by omega)
    rw [if_pos h0]
  unfold getUnblockSRange
  rw [if_neg (by push_neg; exact ⟨le_refl _, le_of_lt hmax⟩), hidx]
  simp only [Dbl.div, sub_self, if_pos rfl, Dbl.mul, Dbl.add, Dbl.fmax]
  cases b.boundaryType <;> rfl

/-- The interpolation is exact at every retained sample other than the
first: at `t = t_k` with `k ≥ 1` the ratio is `1` and the chain value is the
sample value. -/
theorem interpChainAt_lower_sample {b : StBoundary} (hinv : StInv b) (k : ℕ)
    (hk1 : 1 ≤ k) (hkn : k < b.lowerPoints.length) :
    interpChainAt b.lowerPoints (b.lowerPoints.getD k default).t =
      (b.lowerPoints.getD k default).s := by
  unfold interpChainAt
  rw [lbIdx_at_sample hinv k hkn]
  have hmono : (b.lowerPoints.getD (k - 1) default).t <
      (b.lowerPoints.getD k default).t :=
    pairwise_t_mono _ hinv.tGap _ _ (by omega) hkn
  have hne : (b.lowerPoints.getD k default).t -
      (b.lowerPoints.getD (k - 1) default).t ≠ 0 := by
    intro h
    exact absurd (by linarith :
      (b.lowerPoints.getD (k - 1) default).t =
        (b.lowerPoints.getD k default).t) (ne_of_lt hmono)
  show (b.lowerPoints.getD (k - 1) default).s + _ = _
  rw [div_self hne, one_mul]
  ring

theorem interpChainAt_upper_sample {b : StBoundary} (hinv : StInv b) (k : ℕ)
    (hk1 : 1 ≤ k) (hkn : k < b.lowerPoints.length) :
    interpChainAt b.upperPoints (b.lowerPoints.getD k default).t =
      (b.upperPoints.getD k default).s := by
  have hkm : k - 1 < b.lowerPoints.length := by omega
  have hmono : (b.lowerPoints.getD (k - 1) default).t <
      (b.lowerPoints.getD k default).t :=
    pairwise_t_mono _ hinv.tGap _ _ (by omega) hkn
  have hne : (b.lowerPoints.getD k default).t -
      (b.lowerPoints.getD (k - 1) default).t ≠ 0 := by
    intro h
    exact absurd (by linarith :
      (b.lowerPoints.getD (k - 1) default).t =
        (b.lowerPoints.getD k default).t) (ne_of_lt hmono)
  simp only [interpChainAt, lbIdx_upper_eq hinv, lbIdx_at_sample hinv k hkn,
    hinv.sameT _ hkm, hinv.sameT _ hkn]
  rw [div_self hne, one_mul]
  ring

/-! The chain pairs of a constructed boundary are themselves a valid input,
and the rebuilding transformations preserve the invariant. -/

theorem zipPairs_length {b : StBoundary} (hinv : StInv b) :
    (zipPairs b).length = b.lowerPoints.length := by
  unfold zipPairs
  rw [List.length_zip, ← hinv.lenEq, min_self]

theorem zipPairs_getElem {b : StBoundary} (hinv : StInv b) (i : ℕ)
    (hi : i < (zipPairs b).length) :
    (zipPairs b).get ⟨i, hi⟩ =
      (b.lowerPoints.getD i default, b.upperPoints.getD i default) := by
  have hil : i < b.lowerPoints.length := by
    rw [← zipPairs_length hinv]
    exact hi
  have hiu : i < b.upperPoints.length := by
    rw [← hinv.lenEq]
    exact hil
  unfold zipPairs at hi ⊢
  rw [List.get_eq_getElem, List.getElem_zip,
    List.getD_eq_getElem _ default hil, List.getD_eq_getElem _ default hiu]

theorem zipPairs_mem {b : StBoundary} (hinv : StInv b) :
    ∀ pr ∈ zipPairs b, pr.1.s ≤ pr.2.s ∧ pr.1.t = pr.2.t := by
  intro pr hpr
  obtain ⟨i, hget⟩ := List.mem_iff_get.mp hpr
  have hil : i.1 < b.lowerPoints.length := by
    rw [← zipPairs_length hinv]
    exact i.2
  rw [← hget, zipPairs_getElem hinv i.1 i.2]
  exact ⟨hinv.sLe i.1 hil, (hinv.sameT i.1 hil).symm⟩

theorem zipPairs_pairwise {b : StBoundary} (hinv : StInv b) :
    (zipPairs b).Pairwise gapRel := by
  rw [List.pairwise_iff_get]
  intro i j hij
  rw [zipPairs_getElem hinv i.1 i.2, zipPairs_getElem hinv j.1 j.2]
  have hjl : j.1 < b.lowerPoints.length := by
    rw [← zipPairs_length hinv]
    exact j.2
  have hil : i.1 < b.lowerPoints.length := lt_trans hij hjl
  unfold gapRel
  rw [hinv.sameT i.1 hil, hinv.sameT j.1 hjl]
  simp only [max_self, min_self]
  have hi' : i.1 < b.lowerPoints.length := hil
  rw [List.getD_eq_getElem _ default hil, List.getD_eq_getElem _ default hjl]
  exact (List.pairwise_iff_getElem.mp hinv.tGap) i.1 j.1 hil hjl hij

theorem zipPairs_filter_valid {b : StBoundary} (hinv : StInv b)
    (p : STPoint × STPoint → Bool)
    (hlen : 2 ≤ ((zipPairs b).filter p).length) :
    isValid ((zipPairs b).filter p) = true := by
  rw [isValid_eq_true_iff]
  refine ⟨hlen, ?_, ?_⟩
  · intro pr hpr
    obtain ⟨hle, hteq⟩ := zipPairs_mem hinv pr (List.mem_of_mem_filter hpr)
    exact ⟨hle, by rw [hteq]; simp [kStBoundaryEpsilon]⟩
  · exact ((zipPairs_pairwise hinv).filter p).chain'

theorem zipPairs_valid {b : StBoundary} (hinv : StInv b) :
    isValid (zipPairs b) = true := by
  rw [isValid_eq_true_iff]
  refine ⟨?_, ?_, ?_⟩
  · rw [zipPairs_length hinv]
    exact hinv.two
  · intro pr hpr
    obtain ⟨hle, hteq⟩ := zipPairs_mem hinv pr hpr
    exact ⟨hle, by rw [hteq]; simp [kStBoundaryEpsilon]⟩
  · exact (zipPairs_pairwise hinv).chain'

theorem map_lowerOf_zipPairs {b : StBoundary} (hinv : StInv b) :
    (zipPairs b).map lowerOf = b.lowerPoints := by
  have : (zipPairs b).map lowerOf = (zipPairs b).map Prod.fst := by
    refine List.map_congr_left ?_
    intro pr _
    rfl
  rw [this]
  exact List.map_fst_zip _ _ (le_of_eq hinv.lenEq)

theorem map_upperOf_zipPairs {b : StBoundary} (hinv : StInv b) :
    (zipPairs b).map upperOf = b.upperPoints := by
  have : (zipPairs b).map upperOf = (zipPairs b).map Prod.snd := by
    refine List.map_congr_left ?_
    intro pr hpr
    have hteq := (zipPairs_mem hinv pr hpr).2
    show (⟨pr.2.s, pr.1.t⟩ : STPoint) = pr.2
    rw [hteq]
  rw [this]
  exact List.map_snd_zip _ _ (le_of_eq hinv.lenEq.symm)

theorem mkStBoundary_eq_some (pairs : List (STPoint × STPoint))
    (hv : isValid pairs = true) :
    mkStBoundary pairs =
      some ⟨(removeRedundantPoints pairs).map lowerOf,
        (removeRedundantPoints pairs).map upperOf, BoundaryType.UNKNOWN⟩ := by
  unfold mkStBoundary
  rw [if_pos hv]
  rfl

theorem zip_map_fst_snd_self (l : List (STPoint × STPoint)) :
    (l.map Prod.fst).zip (l.map Prod.snd) = l := by
  induction l with
  | nil => rfl
  | cons a rest ih => simp [ih]

theorem expandByS_eq {b : StBoundary} (hinv : StInv b) (s : ℚ) :
    expandByS b s =
      mkStBoundary ((zipPairs b).map fun pr =>
        (⟨pr.1.s - s, pr.1.t⟩, ⟨pr.2.s + s, pr.2.t⟩)) := by
  unfold expandByS
  rw [if_neg (by simp [List.isEmpty_iff, hinv.lower_ne_nil])]
  rfl

theorem expandByS_zero_two {b : StBoundary} (hinv : StInv b)
    (hlen : b.lowerPoints.length = 2) :
    expandByS b 0 =
      some ⟨b.lowerPoints, b.upperPoints, BoundaryType.UNKNOWN⟩ := by
  rw [expandByS_eq hinv 0]
  have hmap : ((zipPairs b).map fun pr =>
      ((⟨pr.1.s - 0, pr.1.t⟩ : STPoint), (⟨pr.2.s + 0, pr.2.t⟩ : STPoint))) =
      zipPairs b := by
    have : ∀ pr ∈ zipPairs b,
        ((⟨pr.1.s - 0, pr.1.t⟩ : STPoint), (⟨pr.2.s + 0, pr.2.t⟩ : STPoint)) =
          pr := by
      intro pr _
      show ((⟨pr.1.s - 0, pr.1.t⟩ : STPoint), (⟨pr.2.s + 0, pr.2.t⟩ :
        STPoint)) = (pr.1, pr.2)
      rw [sub_zero, add_zero]
    rw [List.map_congr_left this, List.map_id']
  rw [hmap, mkStBoundary_eq_some _ (zipPairs_valid hinv)]
  have hzlen : (zipPairs b).length = 2 := by
    rw [zipPairs_length hinv, hlen]
  have hrrp : removeRedundantPoints (zipPairs b) = zipPairs b := by
    unfold removeRedundantPoints
    rw [if_pos (by omega)]
  rw [hrrp, map_lowerOf_zipPairs hinv, map_upperOf_zipPairs hinv]

theorem expandByT_zero {b : StBoundary} (hinv : StInv b) :
    expandByT b 0 = none := by
  have h2 := hinv.two
  have hlen := hinv.lenEq
  cases hL : b.lowerPoints with
  | nil => exact absurd hL hinv.lower_ne_nil
  | cons l0 ltail =>
    cases hU : b.upperPoints with
    | nil =>
      rw [hL, hU] at hlen
      simp at hlen
    | cons u0 utail =>
      have hu0t : u0.t = l0.t := by
        have := hinv.sameT 0 (by omega)
        rw [hL, hU] at this
        simpa using this
      unfold expandByT
      rw [if_neg (by simp [List.isEmpty_iff, hinv.lower_ne_nil])]
      rw [mkStBoundary_eq_none_iff, ← Bool.not_eq_true]
      intro hv
      obtain ⟨_, _, hchain⟩ := (isValid_eq_true_iff _).mp hv
      rw [hL, hU, List.zip_cons_cons] at hchain
      simp only [List.cons_append] at hchain
      rw [List.chain'_cons] at hchain
      have hgap := hchain.1
      unfold gapRel at hgap
      simp only [STPoint.x, STPoint.y, hL, hU, List.getD_cons_zero] at hgap
      rw [hu0t] at hgap
      simp only [sub_zero, max_self, min_self] at hgap
      have hd : (0 : ℚ) < kMinDeltaT := by norm_num [kMinDeltaT]
      linarith

theorem cutOffByT_eq {b : StBoundary} (t : ℚ) :
    cutOffByT b t =
      if ((zipPairs b).filter fun pr => decide (t ≤ pr.1.t)).length < 2 then
        some StBoundary.empty
      else mkStBoundary ((zipPairs b).filter fun pr => decide (t ≤ pr.1.t)) := by
  have hmap : ∀ l : List (STPoint × STPoint),
      (l.map fun pr =>
        ((⟨pr.1.s, pr.1.t⟩ : STPoint), (⟨pr.2.s, pr.2.t⟩ : STPoint))) = l := by
    intro l
    have : ∀ pr ∈ l,
        ((⟨pr.1.s, pr.1.t⟩ : STPoint), (⟨pr.2.s, pr.2.t⟩ : STPoint)) = pr := by
      intro pr _
      rfl
    rw [List.map_congr_left this, List.map_id']
  unfold cutOffByT generateStBoundary zipPairs
  simp only [zip_map_fst_snd_self, hmap, List.length_map]
  by_cases hl : (List.filter (fun pr => decide (t ≤ pr.1.t))
      (b.lowerPoints.zip b.upperPoints)).length < 2
  · simp [hl]
  · simp [hl]

theorem cutOffByT_success {b : StBoundary} (hinv : StInv b) (t : ℚ)
    (hlen : 2 ≤ ((zipPairs b).filter fun pr => decide (t ≤ pr.1.t)).length) :
    cutOffByT b t =
      some ⟨(removeRedundantPoints
          ((zipPairs b).filter fun pr => decide (t ≤ pr.1.t))).map lowerOf,
        (removeRedundantPoints
          ((zipPairs b).filter fun pr => decide (t ≤ pr.1.t))).map upperOf,
        BoundaryType.UNKNOWN⟩ := by
  rw [cutOffByT_eq, if_neg (by omega),
    mkStBoundary_eq_some _ (zipPairs_filter_valid hinv _ hlen)]

/-! Characterisation of the containment test. -/

theorem isPointInBoundary_iff {b : StBoundary} (hinv : StInv b) (p : STPoint) :
    isPointInBoundary b p = true ↔
      b.minT < p.t ∧ p.t < b.maxT ∧
        ∃ left right, getIndexRange b.lowerPoints p.t = some (left, right) ∧
          crossProd p (b.upperPoints.getD left default)
              (b.upperPoints.getD right default) *
            crossProd p (b.lowerPoints.getD left default)
              (b.lowerPoints.getD right default) < 0 := by
  unfold isPointInBoundary
  by_cases hg : p.t ≤ b.minT ∨ b.maxT ≤ p.t
  · rw [if_pos hg]
    simp only [Bool.false_eq_true, false_iff]
    rintro ⟨h1, h2, _⟩
    rcases hg with h | h
    · linarith
    · linarith
  · rw [if_neg hg]
    push_neg at hg
    obtain ⟨h1, h2⟩ := hg
    rw [getIndexRange_interior hinv p.t h1 (le_of_lt h2)]
    simp only [decide_eq_true_eq]
    constructor
    · intro h
      exact ⟨h1, h2, _, _, rfl, h⟩
    · rintro ⟨_, _, l, r, hlr, hprod⟩
      rw [Option.some.injEq, Prod.mk.injEq] at hlr
      obtain ⟨hl, hr⟩ := hlr
      rw [hl, hr]
      exact hprod

theorem map_lowerOf_eq_fst (l : List (STPoint × STPoint)) :
    l.map lowerOf = l.map Prod.fst :=
  List.map_congr_left fun _ _ => rfl

theorem expandByS_zero_of_fixed {b : StBoundary} (hinv : StInv b)
    (hrrp : removeRedundantPoints (zipPairs b) = zipPairs b) :
    expandByS b 0 =
      some ⟨b.lowerPoints, b.upperPoints, BoundaryType.UNKNOWN⟩ := by
  rw [expandByS_eq hinv 0]
  have hmap : ((zipPairs b).map fun pr =>
      ((⟨pr.1.s - 0, pr.1.t⟩ : STPoint), (⟨pr.2.s + 0, pr.2.t⟩ : STPoint))) =
      zipPairs b := by
    have : ∀ pr ∈ zipPairs b,
        ((⟨pr.1.s - 0, pr.1.t⟩ : STPoint), (⟨pr.2.s + 0, pr.2.t⟩ : STPoint)) =
          pr := by
      intro pr _
      show ((⟨pr.1.s - 0, pr.1.t⟩ : STPoint), (⟨pr.2.s + 0, pr.2.t⟩ :
        STPoint)) = (pr.1, pr.2)
      rw [sub_zero, add_zero]
    rw [List.map_congr_left this, List.map_id']
  rw [hmap, mkStBoundary_eq_some _ (zipPairs_valid hinv), hrrp,
    map_lowerOf_zipPairs hinv, map_upperOf_zipPairs hinv]

theorem sample_t_le_maxT {b : StBoundary} (hinv : StInv b) (k : ℕ)
    (hkn : k < b.lowerPoints.length) :
    (b.lowerPoints.getD k default).t ≤ b.maxT := by
  unfold StBoundary.maxT
  rcases eq_or_lt_of_le (by omega : k ≤ b.lowerPoints.length - 1) with he | hlt
  · rw [he]
  · exact le_of_lt (pairwise_t_mono _ hinv.tGap _ _ hlt (by omega))

theorem minT_lt_sample_t {b : StBoundary} (hinv : StInv b) (k : ℕ)
    (hk1 : 1 ≤ k) (hkn : k < b.lowerPoints.length) :
    b.minT < (b.lowerPoints.getD k default).t := by
  unfold StBoundary.minT
  exact pairwise_t_mono _ hinv.tGap 0 k (by omega) hkn

/-! The publish pipeline never touches the decision reason. -/

theorem setFallbackTrajectory_notReadyReason (f : Flags)
    (lastPlanning : Option ADCTrajectory) (v : ℚ) (pb : ADCTrajectory) :
    (setFallbackTrajectory f lastPlanning v pb).notReadyReason =
      pb.notReadyReason := by
  unfold setFallbackTrajectory
  split
  · rfl
  · split
    · rfl
    · rfl

theorem publishPlanningPb_notReadyReason (f : Flags)
    (lastPlanning : Option ADCTrajectory) (v now : ℚ) (pb : ADCTrajectory)
    (timestamp : ℚ) :
    (publishPlanningPb f lastPlanning v now pb timestamp).notReadyReason =
      pb.notReadyReason := by
  unfold publishPlanningPb
  simp only []
  split
  · split
    · exact setFallbackTrajectory_notReadyReason _ _ _ _
    · rfl
  · show (if f.usePlanningFallback = true ∧ pb.points = [] then _ else _ :
      ADCTrajectory).notReadyReason = _
    split
    · exact setFallbackTrajectory_notReadyReason _ _ _ _
    · rfl

/-! Claim theorems. -/

/-- C2 (amended): `StBoundary::IsValid` accepts exactly the inputs with at
least two pairs, `upper.s ≥ lower.s` and `|lower.t - upper.t| ≤ 1e-9` in
every pair, and each consecutive time step exceeding the previous pair's
larger time by strictly more than `1e-6` (the code rejects a gap of exactly
`kMinDeltaT`); the constructor fails exactly on the inputs `IsValid`
rejects, never repairing them. -/
theorem isValid_characterisation (pairs : List (STPoint × STPoint)) :
    (isValid pairs = true ↔
      2 ≤ pairs.length ∧
        (∀ pr ∈ pairs,
          pr.1.s ≤ pr.2.s ∧ |pr.1.t - pr.2.t| ≤ kStBoundaryEpsilon) ∧
        pairs.Chain' fun a b =>
          max a.1.t a.2.t + kMinDeltaT < min b.1.t b.2.t) ∧
    (mkStBoundary pairs = none ↔ isValid pairs = false) :=
  ⟨isValid_eq_true_iff pairs, mkStBoundary_eq_none_iff pairs⟩

/-- C2 counterexample: `gapPairs` satisfies every condition of the claim —
in particular its consecutive times differ by exactly the minimum gap
`1e-6`, i.e. "by at least" the gap — yet `IsValid` rejects it and
construction fails, so the claimed "if and only if" is false as stated. -/
theorem isValid_min_gap_cex :
    claimValidC2 gapPairs ∧ isValid gapPairs = false ∧
      mkStBoundary gapPairs = none := by
  refine ⟨?_, by with_unfolding_all decide, by with_unfolding_all decide⟩
  unfold claimValidC2 gapPairs
  refine ⟨by decide, ?_, ?_⟩
  · intro pr hpr
    rcases List.mem_cons.mp hpr with h | h
    · subst h
      norm_num [kStBoundaryEpsilon]
    · rcases List.mem_cons.mp h with h2 | h2
      · subst h2
        norm_num [kStBoundaryEpsilon]
      · simp at h2
  · rw [List.chain'_cons]
    refine ⟨?_, List.chain'_singleton _⟩
    norm_num [kMinDeltaT]

/-- C3 (confirmed): the containment test returns false whenever the query
time is at or outside the open interval `(min_t, max_t)`, and inside that
interval it returns true exactly when the two signed cross products against
the bracketing upper and lower chain segments have strictly opposite
signs. -/
theorem containment_characterisation {b : StBoundary} (hinv : StInv b)
    (p : STPoint) :
    (p.t ≤ b.minT ∨ b.maxT ≤ p.t → isPointInBoundary b p = false) ∧
    (isPointInBoundary b p = true ↔
      b.minT < p.t ∧ p.t < b.maxT ∧
        ∃ left right, getIndexRange b.lowerPoints p.t = some (left, right) ∧
          crossProd p (b.upperPoints.getD left default)
              (b.upperPoints.getD right default) *
            crossProd p (b.lowerPoints.getD left default)
              (b.lowerPoints.getD right default) < 0) := by
  refine ⟨?_, isPointInBoundary_iff hinv p⟩
  intro h
  unfold isPointInBoundary
  rw [if_pos h]

/-- C3 witness: the characterisation applied to the concrete boundary `qB`
at the query point `(s, t) = (3, 0)`, whose time equals `min_t`: the test
returns false. -/
theorem containment_characterisation_witness :
    isPointInBoundary qB ⟨3, 0⟩ = false :=
  (containment_characterisation
    ⟨by with_unfolding_all decide, by with_unfolding_all decide,
      by with_unfolding_all decide, by with_unfolding_all decide,
      by with_unfolding_all decide⟩ ⟨3, 0⟩).1
    (Or.inl (by with_unfolding_all decide))

/-- C4 (amended): `GetUnblockSRange` returns the full range
`[0, s_high_limit]` for times strictly outside `[min_t, max_t]`; for times
in the half-open interval `(min_t, max_t]` it clamps the upper bound to the
interpolated lower chain for FOLLOW/YIELD/STOP, raises the lower bound to
`max 0` of the interpolated upper chain for OVERTAKE, and fails for
KEEP_CLEAR/UNKNOWN; at `t = min_t` exactly, the interpolation ratio is
`0 / 0` (NaN), so FOLLOW/YIELD/STOP report a NaN upper bound and OVERTAKE
degenerates to the full range instead of the interpolated values. -/
theorem unblock_range_characterisation {b : StBoundary} (hinv : StInv b)
    (t : ℚ) :
    ((t < b.minT ∨ b.maxT < t) →
      getUnblockSRange b t = some (Dbl.fin sHighLimit, Dbl.fin 0)) ∧
    (b.minT < t → t ≤ b.maxT →
      ((b.boundaryType = BoundaryType.FOLLOW ∨
          b.boundaryType = BoundaryType.YIELD ∨
          b.boundaryType = BoundaryType.STOP) →
        getUnblockSRange b t =
          some (Dbl.fin (interpChainAt b.lowerPoints t), Dbl.fin 0)) ∧
      (b.boundaryType = BoundaryType.OVERTAKE →
        getUnblockSRange b t =
          some (Dbl.fin sHighLimit,
            Dbl.fin (max 0 (interpChainAt b.upperPoints t)))) ∧
      ((b.boundaryType = BoundaryType.KEEP_CLEAR ∨
          b.boundaryType = BoundaryType.UNKNOWN) →
        getUnblockSRange b t = none)) ∧
    (t = b.minT →
      ((b.boundaryType = BoundaryType.FOLLOW ∨
          b.boundaryType = BoundaryType.YIELD ∨
          b.boundaryType = BoundaryType.STOP) →
        getUnblockSRange b t = some (Dbl.nan, Dbl.fin 0)) ∧
      (b.boundaryType = BoundaryType.OVERTAKE →
        getUnblockSRange b t = some (Dbl.fin sHighLimit, Dbl.fin 0)) ∧
      ((b.boundaryType = BoundaryType.KEEP_CLEAR ∨
          b.boundaryType = BoundaryType.UNKNOWN) →
        getUnblockSRange b t = none)) := by
  refine ⟨?_, ?_, ?_⟩
  · intro h
    unfold getUnblockSRange
    rw [if_pos h]
  · intro h1 h2
    have hint := getUnblockSRange_interior hinv t h1 h2
    refine ⟨?_, ?_, ?_⟩
    · rintro (hty | hty | hty) <;> rw [hint, hty]
    · intro hty
      rw [hint, hty]
    · rintro (hty | hty) <;> rw [hint, hty]
  · intro heq
    subst heq
    have hmin := getUnblockSRange_at_minT hinv
    refine ⟨?_, ?_, ?_⟩
    · rintro (hty | hty | hty) <;> rw [hmin, hty]
    · intro hty
      rw [hmin, hty]
    · rintro (hty | hty) <;> rw [hmin, hty]

/-- C4 counterexample: on the valid FOLLOW boundary `qB` the time
`t = 0 = min_t` lies inside `[min_t, max_t]`, but the returned upper bound
is NaN, not the interpolated lower-chain value (which is `1`), because the
bracketing indices collapse and the ratio is `0 / 0`; so the claim's
description of every in-range FOLLOW query is false. -/
theorem unblock_range_min_t_cex :
    mkStBoundary qPairs = some qB ∧
    (qB.setType BoundaryType.FOLLOW).minT ≤ 0 ∧
    (0 : ℚ) ≤ (qB.setType BoundaryType.FOLLOW).maxT ∧
    getUnblockSRange (qB.setType BoundaryType.FOLLOW) 0 =
      some (Dbl.nan, Dbl.fin 0) ∧
    interpChainAt (qB.setType BoundaryType.FOLLOW).lowerPoints 0 = 1 ∧
    Dbl.nan ≠ Dbl.fin 1 := by
  with_unfolding_all decide

/-- C4 witness: the characterisation instantiated at the FOLLOW boundary
`qB` and the interior time `t = 1/2`. -/
theorem unblock_range_characterisation_witness :
    getUnblockSRange (qB.setType BoundaryType.FOLLOW) (1/2) =
      some (Dbl.fin
        (interpChainAt (qB.setType BoundaryType.FOLLOW).lowerPoints (1/2)),
        Dbl.fin 0) :=
  ((unblock_range_characterisation
    ⟨by with_unfolding_all decide, by with_unfolding_all decide,
      by with_unfolding_all decide, by with_unfolding_all decide,
      by with_unfolding_all decide⟩ (1/2)).2.1
    (by with_unfolding_all decide) (by with_unfolding_all decide)).1
    (Or.inl rfl)

/-- C5 (amended): at every retained sample time other than the first
(`k ≥ 1`), the interpolation is exact: `GetBoundarySRange` returns the
sample's upper and lower `s` clamped to `[0, s_high_limit]`, and
`GetUnblockSRange` uses the exact sample value as the type-specific bound.
At `k = 0` the sample time equals `min_t` and the `0 / 0` ratio destroys the
sample values (see the counterexample). -/
theorem sample_time_exact_interpolation {b : StBoundary} (hinv : StInv b)
    (k : ℕ) (hk1 : 1 ≤ k) (hkn : k < b.lowerPoints.length) :
    getBoundarySRange b (b.lowerPoints.getD k default).t =
      some (Dbl.fin (min (b.upperPoints.getD k default).s sHighLimit),
        Dbl.fin (max (b.lowerPoints.getD k default).s 0)) ∧
    ((b.boundaryType = BoundaryType.FOLLOW ∨
        b.boundaryType = BoundaryType.YIELD ∨
        b.boundaryType = BoundaryType.STOP) →
      getUnblockSRange b (b.lowerPoints.getD k default).t =
        some (Dbl.fin (b.lowerPoints.getD k default).s, Dbl.fin 0)) ∧
    (b.boundaryType = BoundaryType.OVERTAKE →
      getUnblockSRange b (b.lowerPoints.getD k default).t =
        some (Dbl.fin sHighLimit,
          Dbl.fin (max 0 (b.upperPoints.getD k default).s))) := by
  have h1 := minT_lt_sample_t hinv k hk1 hkn
  have h2 := sample_t_le_maxT hinv k hkn
  refine ⟨?_, ?_, ?_⟩
  · rw [getBoundarySRange_interior hinv _ h1 h2,
      interpChainAt_lower_sample hinv k hk1 hkn,
      interpChainAt_upper_sample hinv k hk1 hkn]
  · rintro (hty | hty | hty) <;>
      rw [getUnblockSRange_interior hinv _ h1 h2,
        interpChainAt_lower_sample hinv k hk1 hkn, hty]
  · intro hty
    rw [getUnblockSRange_interior hinv _ h1 h2,
      interpChainAt_upper_sample hinv k hk1 hkn, hty]

/-- C5 counterexample: at the first retained sample (`k = 0`, whose time is
`min_t`), `GetBoundarySRange` on the valid boundary `qB` returns the
clamping defaults `(s_high_limit, 0) = (200, 0)`, not the sample's values
`(2, 1)`: the NaN ratio wipes out both interpolated values, so the claim's
"every retained index k including the first" is false. -/
theorem sample_time_first_index_cex :
    mkStBoundary qPairs = some qB ∧
    (qB.lowerPoints.getD 0 default).t = qB.minT ∧
    getBoundarySRange qB (qB.lowerPoints.getD 0 default).t =
      some (Dbl.fin sHighLimit, Dbl.fin 0) ∧
    (qB.upperPoints.getD 0 default).s = 2 ∧
    (qB.lowerPoints.getD 0 default).s = 1 ∧
    some (Dbl.fin sHighLimit, Dbl.fin 0) ≠
      some (Dbl.fin (2 : ℚ), Dbl.fin (1 : ℚ)) := by
  with_unfolding_all decide

/-- C5 witness: exactness at the second retained sample of `qB`. -/
theorem sample_time_exact_interpolation_witness :
    getBoundarySRange qB (qB.lowerPoints.getD 1 default).t =
      some (Dbl.fin (min (qB.upperPoints.getD 1 default).s sHighLimit),
        Dbl.fin (max (qB.lowerPoints.getD 1 default).s 0)) :=
  (sample_time_exact_interpolation
    ⟨by with_unfolding_all decide, by with_unfolding_all decide,
      by with_unfolding_all decide, by with_unfolding_all decide,
      by with_unfolding_all decide⟩ 1 (by decide)
    (by with_unfolding_all decide)).1

/-- C1 (amended): on a successful cycle the published trajectory is the
stitching trajectory, all but its last point, followed by the selected
candidate's optimized trajectory; when the candidate begins at the prefix's
last point (the continuity contract of the external optimizer), that seam
point appears exactly once, at position `|prefix| - 1`, and it is the
published trajectory's first point exactly in the single-point (replan)
case. -/
theorem planAssemble_seam (stitching candidate : List TrajPoint)
    (hs : stitching ≠ []) (hc : candidate.head? = stitching.getLast?) :
    planAssemble stitching candidate = stitching.dropLast ++ candidate ∧
    (planAssemble stitching candidate)[stitching.length - 1]? =
      stitching.getLast? ∧
    (stitching.length = 1 →
      (planAssemble stitching candidate).head? = stitching.getLast?) := by
  refine ⟨rfl, ?_, ?_⟩
  · unfold planAssemble
    rw [List.getElem?_append_right (by rw [List.length_dropLast]),
      List.length_dropLast, Nat.sub_self, ← List.head?_eq_getElem?, hc]
  · intro h1
    unfold planAssemble
    cases stitching with
    | nil => exact absurd rfl hs
    | cons a rest =>
      have hrest : rest = [] := by
        rw [List.length_cons] at h1
        exact List.length_eq_zero.mp (by omega)
      subst hrest
      simpa using hc

/-- C1 counterexample: with the two-point stitching prefix
`[(0,0), (1,0)]` and a candidate starting at the prefix's last point, the
emitted trajectory's first point is the prefix's FIRST point `(0,0)`, not
its last point: the prefix minus its last point is prepended, so the claim
that the emitted trajectory's first point equals the prefix's last point is
false whenever the prefix has more than one point. -/
theorem emitted_head_ne_stitch_last_cex :
    ([tpx 1, tpx 2] : List TrajPoint).head? =
      ([tpx 0, tpx 1] : List TrajPoint).getLast? ∧
    (planAssemble [tpx 0, tpx 1] [tpx 1, tpx 2]).head? ≠
      ([tpx 0, tpx 1] : List TrajPoint).getLast? := by
  with_unfolding_all decide

/-- C1 witness: the seam property instantiated at the concrete prefix
`[(0,0), (1,0)]` and candidate `[(1,0), (2,0)]`. -/
theorem planAssemble_seam_witness :
    planAssemble [tpx 0, tpx 1] [tpx 1, tpx 2] =
      ([tpx 0, tpx 1] : List TrajPoint).dropLast ++ [tpx 1, tpx 2] ∧
    (planAssemble [tpx 0, tpx 1] [tpx 1, tpx 2])[
      ([tpx 0, tpx 1] : List TrajPoint).length - 1]? =
      ([tpx 0, tpx 1] : List TrajPoint).getLast? ∧
    (([tpx 0, tpx 1] : List TrajPoint).length = 1 →
      (planAssemble [tpx 0, tpx 1] [tpx 1, tpx 2]).head? =
        ([tpx 0, tpx 1] : List TrajPoint).getLast?) :=
  planAssemble_seam [tpx 0, tpx 1] [tpx 1, tpx 2]
    (by with_unfolding_all decide) (by with_unfolding_all decide)

/-- C6 (amended): `ExpandByS(0)` rebuilds the boundary from its own chain
pairs through the validating constructor; it reproduces the chains exactly
when re-simplifying them removes nothing (in particular this covers every
two-sample boundary), but when the chains re-simplify further it drops
samples (see the counterexample).  `ExpandByT(0)` never succeeds: it
prepends a sample at `min_t - 0 = min_t`, so the rebuilt pair list violates
the minimum-time-gap precondition and the constructor's validity check
fails. -/
theorem expand_zero_characterisation {b : StBoundary} (hinv : StInv b) :
    (removeRedundantPoints (zipPairs b) = zipPairs b →
      expandByS b 0 =
        some ⟨b.lowerPoints, b.upperPoints, BoundaryType.UNKNOWN⟩) ∧
    expandByT b 0 = none :=
  ⟨fun hrrp => expandByS_zero_of_fixed hinv hrrp, expandByT_zero hinv⟩

set_option maxRecDepth 100000 in
/-- C6 counterexample: on the valid boundary built from `wigglePairs`,
`ExpandByS(0)` returns a boundary with only two of the three chain samples
(the rebuild re-simplifies the chains), and `ExpandByT(0)` fails
construction outright; neither is a no-op. -/
theorem expand_zero_cex :
    mkStBoundary wigglePairs = some wiggleB ∧
    expandByS wiggleB 0 =
      some ⟨[⟨0, 0⟩, ⟨1 / 4, 3 / 1000⟩], [⟨1, 0⟩, ⟨5 / 4, 3 / 1000⟩],
        BoundaryType.UNKNOWN⟩ ∧
    [(⟨0, 0⟩ : STPoint), ⟨1 / 4, 3 / 1000⟩] ≠ wiggleB.lowerPoints ∧
    expandByT wiggleB 0 = none := by
  with_unfolding_all decide

/-- C6 witness: on the two-sample boundary `qB`, `ExpandByS(0)` preserves
both chains and `ExpandByT(0)` fails. -/
theorem expand_zero_characterisation_witness :
    expandByS qB 0 =
      some ⟨qB.lowerPoints, qB.upperPoints, BoundaryType.UNKNOWN⟩ ∧
    expandByT qB 0 = none := by
  have hinv : StInv qB :=
    ⟨by with_unfolding_all decide, by with_unfolding_all decide,
      by with_unfolding_all decide, by with_unfolding_all decide,
      by with_unfolding_all decide⟩
  exact ⟨(expand_zero_characterisation hinv).1 (by with_unfolding_all decide),
    (expand_zero_characterisation hinv).2⟩

/-- C7 (amended): `CutOffByT(t)` passes exactly the sample pairs with
`lower.t ≥ t`, in order, to reconstruction; with fewer than two survivors it
returns the empty default boundary; otherwise reconstruction succeeds (the
survivors always satisfy the validity preconditions) and yields chains that
are an order-preserving subsequence of the survivors retaining the first
and last of them — re-simplification may drop interior survivors, so the
result need not contain exactly the surviving samples. -/
theorem cutoff_characterisation {b : StBoundary} (hinv : StInv b) (t : ℚ) :
    (((zipPairs b).filter fun pr => decide (t ≤ pr.1.t)).length < 2 →
      cutOffByT b t = some StBoundary.empty) ∧
    (2 ≤ ((zipPairs b).filter fun pr => decide (t ≤ pr.1.t)).length →
      ∃ b', cutOffByT b t = some b' ∧
        b'.lowerPoints.Sublist
          (((zipPairs b).filter fun pr => decide (t ≤ pr.1.t)).map
            Prod.fst) ∧
        b'.lowerPoints.head? =
          (((zipPairs b).filter fun pr => decide (t ≤ pr.1.t)).map
            Prod.fst).head? ∧
        b'.lowerPoints.getLast? =
          (((zipPairs b).filter fun pr => decide (t ≤ pr.1.t)).map
            Prod.fst).getLast?) := by
  constructor
  · intro hlen
    rw [cutOffByT_eq, if_pos hlen]
  · intro hlen
    refine ⟨_, cutOffByT_success hinv t hlen, ?_, ?_, ?_⟩
    · rw [map_lowerOf_eq_fst]
      exact (removeRedundantPoints_sublist _).map Prod.fst
    · rw [map_lowerOf_eq_fst, List.head?_map, List.head?_map,
        removeRedundantPoints_head?]
    · rw [map_lowerOf_eq_fst, List.getLast?_map, List.getLast?_map,
        removeRedundantPoints_getLast?]

set_option maxRecDepth 100000 in
/-- C7 counterexample: on the boundary built from `wigglePairs`, every
chain sample has `lower.t ≥ 0`, yet `CutOffByT(0)` returns a boundary with
only two of the three samples: reconstruction re-simplifies the survivors,
so the result is not "exactly those samples whose lower.t ≥ t". -/
theorem cutoff_resimplification_cex :
    mkStBoundary wigglePairs = some wiggleB ∧
    (wiggleB.lowerPoints.filter fun p => decide ((0 : ℚ) ≤ p.t)) =
      wiggleB.lowerPoints ∧
    (cutOffByT wiggleB 0).map StBoundary.lowerPoints =
      some [⟨0, 0⟩, ⟨1 / 4, 3 / 1000⟩] ∧
    some [(⟨0, 0⟩ : STPoint), ⟨1 / 4, 3 / 1000⟩] ≠
      some wiggleB.lowerPoints := by
  with_unfolding_all decide

/-- C7 witness: cutting `qB` at `t = 0` keeps both samples and rebuilds
successfully. -/
theorem cutoff_characterisation_witness :
    ∃ b', cutOffByT qB 0 = some b' ∧
      b'.lowerPoints.Sublist
        (((zipPairs qB).filter fun pr => decide ((0 : ℚ) ≤ pr.1.t)).map
          Prod.fst) ∧
      b'.lowerPoints.head? =
        (((zipPairs qB).filter fun pr => decide ((0 : ℚ) ≤ pr.1.t)).map
          Prod.fst).head? ∧
      b'.lowerPoints.getLast? =
        (((zipPairs qB).filter fun pr => decide ((0 : ℚ) ≤ pr.1.t)).map
          Prod.fst).getLast? := by
  have hinv : StInv qB :=
    ⟨by with_unfolding_all decide, by with_unfolding_all decide,
      by with_unfolding_all decide, by with_unfolding_all decide,
      by with_unfolding_all decide⟩
  exact (cutoff_characterisation hinv 0).2 (by with_unfolding_all decide)

/-- C8 (confirmed): when the localization snapshot is empty, the tick
publishes a not-ready result whose decision reason is exactly
"localization not ready", leaves the controller's cross-cycle state
untouched (no frame-history update), and never invokes the remainder of
the cycle — the outcome is independent of the continuation that performs
the vehicle-state update, stitching and frame construction. -/
theorem readiness_gate_localization (f : Flags)
    (cont : PlanningInput → PlanningState → ADCTrajectory × PlanningState)
    (inp : PlanningInput) (st : PlanningState)
    (h : inp.localization = none) :
    (runOnce f cont inp st).1.notReadyReason =
      some "localization not ready" ∧
    (runOnce f cont inp st).2 = st ∧
    ∀ g, runOnce f g inp st = runOnce f cont inp st := by
  have hg : gateReason f inp = some "localization not ready" := by
    unfold gateReason
    rw [h]
    rfl
  unfold runOnce
  rw [hg]
  refine ⟨?_, rfl, ?_⟩
  · rw [publishPlanningPb_notReadyReason]
  · intro g
    rfl

/-- C8 witness: the readiness gate instantiated at a concrete input with an
empty localization snapshot, a nonempty controller state and a continuation
that would archive a frame. -/
theorem readiness_gate_localization_witness :
    (runOnce fbFlags archivingCont noLocInput someState).1.notReadyReason =
      some "localization not ready" ∧
    (runOnce fbFlags archivingCont noLocInput someState).2 = someState ∧
    ∀ g, runOnce fbFlags g noLocInput someState =
      runOnce fbFlags archivingCont noLocInput someState :=
  readiness_gate_localization fbFlags archivingCont noLocInput someState rfl

theorem cruisePoints_length (v T : ℚ) :
    (cruisePoints v T).length = ⌈(10 * T : ℚ)⌉₊ := by
  unfold cruisePoints
  rw [List.length_map, List.length_range]

theorem cruisePoints_ne_nil (v T : ℚ) (hT : 0 < T) :
    cruisePoints v T ≠ [] := by
  have h10 : (0 : ℚ) < 10 * T := by linarith
  have hn : 0 < ⌈(10 * T : ℚ)⌉₊ := Nat.ceil_pos.mpr h10
  intro h
  have hlen := cruisePoints_length v T
  rw [h] at hlen
  simp only [List.length_nil] at hlen
  omega

theorem publishPlanningPb_points (f : Flags)
    (lastPlanning : Option ADCTrajectory) (v now : ℚ) (pb : ADCTrajectory)
    (ts : ℚ) (hfb : f.usePlanningFallback = true) (hpb : pb.points = []) :
    (publishPlanningPb f lastPlanning v now pb ts).points =
      if f.planningTestMode then fallbackBase f lastPlanning v ts
      else (fallbackBase f lastPlanning v ts).map (tShift (ts - now)) := by
  unfold publishPlanningPb setFallbackTrajectory fallbackBase
  rcases lastPlanning with _ | traj <;>
    by_cases hnav : f.useNavigationMode = true <;>
      by_cases htm : f.planningTestMode = true <;>
        simp [hfb, hpb, hnav, htm]

/-- C9 (amended): whenever the fallback is enabled and the trajectory about
to be published is empty, the published points are exactly the fallback
base (shifted by the publish-time drift outside test mode): in navigation
mode the constant-velocity cruise profile sampled every 0.1 s, which is
non-empty whenever the cruise horizon is positive; otherwise the previous
cycle's published points with relative times re-based by the difference
between the previous and current header timestamps, non-empty whenever a
non-empty previous trajectory exists.  With no previous published message
(and non-navigation mode) the output remains empty — the claim's
unconditional non-emptiness does not hold. -/
theorem fallback_characterisation (f : Flags)
    (lastPlanning : Option ADCTrajectory) (v now ts : ℚ)
    (pb : ADCTrajectory) (hfb : f.usePlanningFallback = true)
    (hpb : pb.points = []) :
    ((publishPlanningPb f lastPlanning v now pb ts).points =
      if f.planningTestMode then fallbackBase f lastPlanning v ts
      else (fallbackBase f lastPlanning v ts).map (tShift (ts - now))) ∧
    (f.useNavigationMode = true →
      fallbackBase f lastPlanning v ts =
        cruisePoints v f.navigationFallbackCruiseTime ∧
      (0 < f.navigationFallbackCruiseTime →
        (publishPlanningPb f lastPlanning v now pb ts).points ≠ [])) ∧
    (f.useNavigationMode = false →
      (∀ traj, lastPlanning = some traj →
        fallbackBase f lastPlanning v ts =
          traj.points.map (tShift (traj.headerTimestamp - ts)) ∧
        (traj.points ≠ [] →
          (publishPlanningPb f lastPlanning v now pb ts).points ≠ [])) ∧
      (lastPlanning = none →
        (publishPlanningPb f lastPlanning v now pb ts).points = [])) := by
  have hpts := publishPlanningPb_points f lastPlanning v now pb ts hfb hpb
  refine ⟨hpts, ?_, ?_⟩
  · intro hnav
    have hbase : fallbackBase f lastPlanning v ts =
        cruisePoints v f.navigationFallbackCruiseTime := by
      unfold fallbackBase
      rw [if_pos hnav]
    refine ⟨hbase, ?_⟩
    intro hT
    rw [hpts, hbase]
    have hne := cruisePoints_ne_nil v f.navigationFallbackCruiseTime hT
    split
    · exact hne
    · simpa using hne
  · intro hnav
    have hnav' : ¬f.useNavigationMode = true := by
      rw [hnav]
      exact Bool.false_ne_true
    constructor
    · intro traj htraj
      have hbase : fallbackBase f lastPlanning v ts =
          traj.points.map (tShift (traj.headerTimestamp - ts)) := by
        unfold fallbackBase
        rw [if_neg hnav', htraj]
      refine ⟨hbase, ?_⟩
      intro hne
      rw [hpts, hbase]
      split
      · simpa using hne
      · simpa using hne
    · intro hnone
      rw [hpts]
      have hbase : fallbackBase f lastPlanning v ts = [] := by
        unfold fallbackBase
        rw [if_neg hnav', hnone]
      rw [hbase]
      split
      · rfl
      · rfl

/-- C9 counterexample: fallback enabled, navigation mode off, empty
trajectory to publish, and no previous published message: the published
trajectory is empty, contradicting the claimed non-empty output. -/
theorem fallback_empty_cex :
    fbFlags.usePlanningFallback = true ∧
    (publishPlanningPb fbFlags none 0 0 {} 1).points = [] := by
  with_unfolding_all decide

/-- C9 witness: the fallback characterisation instantiated with the
previous cycle's published message present. -/
theorem fallback_characterisation_witness :
    (publishPlanningPb fbFlags
        (some { headerTimestamp := 2, points := [tpx 1] }) 0 0 {} 3).points =
      (if fbFlags.planningTestMode then
        fallbackBase fbFlags
          (some { headerTimestamp := 2, points := [tpx 1] }) 0 3
      else (fallbackBase fbFlags
          (some { headerTimestamp := 2, points := [tpx 1] }) 0 3).map
        (tShift (3 - 0))) :=
  (fallback_characterisation fbFlags
    (some { headerTimestamp := 2, points := [tpx 1] }) 0 0 3 {} rfl rfl).1

/-- C10 (confirmed): every successfully constructed boundary satisfies the
structural invariant — equal-length chains of at least two points, equal
times at equal indices, lower `s` at most upper `s`, strictly increasing
times — and simplification always retains the first and last input pairs;
ExpandByS, ExpandByT, and CutOffByT with at least two surviving samples
only ever return boundaries satisfying the same invariant. -/
theorem boundary_invariants :
    (∀ pairs b, mkStBoundary pairs = some b → StInv b ∧
      b.lowerPoints.head? = pairs.head?.map lowerOf ∧
      b.upperPoints.head? = pairs.head?.map upperOf ∧
      b.lowerPoints.getLast? = pairs.getLast?.map lowerOf ∧
      b.upperPoints.getLast? = pairs.getLast?.map upperOf) ∧
    (∀ b s b', StInv b → expandByS b s = some b' → StInv b') ∧
    (∀ b t b', StInv b → expandByT b t = some b' → StInv b') ∧
    (∀ b t b', StInv b →
      2 ≤ ((zipPairs b).filter fun pr => decide (t ≤ pr.1.t)).length →
      cutOffByT b t = some b' → StInv b') := by
  refine ⟨?_, ?_, ?_, ?_⟩
  · intro pairs b hb
    obtain ⟨hl, hu, _, _⟩ := mkStBoundary_chains pairs b hb
    refine ⟨mkStBoundary_inv pairs b hb, ?_, ?_, ?_, ?_⟩
    · rw [hl, List.head?_map, removeRedundantPoints_head?]
    · rw [hu, List.head?_map, removeRedundantPoints_head?]
    · rw [hl, List.getLast?_map, removeRedundantPoints_getLast?]
    · rw [hu, List.getLast?_map, removeRedundantPoints_getLast?]
  · intro b s b' hinv hb'
    rw [expandByS_eq hinv s] at hb'
    exact mkStBoundary_inv _ _ hb'
  · intro b t b' hinv hb'
    unfold expandByT at hb'
    rw [if_neg (by simp [List.isEmpty_iff, hinv.lower_ne_nil])] at hb'
    exact mkStBoundary_inv _ _ hb'
  · intro b t b' hinv hlen hb'
    rw [cutOffByT_eq, if_neg (by omega)] at hb'
    exact mkStBoundary_inv _ _ hb'

/-- C10 witness: the construction part instantiated at `qPairs`. -/
theorem boundary_invariants_witness :
    StInv qB ∧
    qB.lowerPoints.head? = qPairs.head?.map lowerOf ∧
    qB.upperPoints.head? = qPairs.head?.map upperOf ∧
    qB.lowerPoints.getLast? = qPairs.getLast?.map lowerOf ∧
    qB.upperPoints.getLast? = qPairs.getLast?.map upperOf :=
  boundary_invariants.1 qPairs qB (by with_unfolding_all decide)

end ApolloPlanning
